import Mathlib

/-!
Verification of the AWS invoice-analysis core (aws_service_analyzer.py,
forensic_extractor.py, claude_aws_enhanced.py) against its natural-language
specification.

Modelling conventions:
* Python `str` is modelled as `List Char`; `Decimal` and `float` values are
  modelled as exact fractions (`Dec` below: an integer numerator over a
  positive natural denominator, interpreted in `ℚ` by `Dec.toRat`).
* The conversion `float(<Decimal>)` that the source applies when it stores
  costs and summary totals is modelled faithfully by `pyFloat`, which rounds
  an exact fraction to the nearest IEEE-754 binary64 value (round to nearest,
  ties to even, normal range; invoice amounts are far inside that range).
  Arithmetic on values that are already floats is modelled as exact rational
  arithmetic: the claims under study concern the Decimal-to-float boundary,
  not accumulated unit-last-place rounding of float addition.
* Python exceptions are modelled with `Option`: a function that can raise
  returns `none` on the raising inputs.
* `re.search` is modelled per pattern by a hand-written matcher that scans
  the candidate start positions left to right and explores a pattern's
  alternatives in the backtracking order of the Python `re` engine.
-/

set_option maxRecDepth 8000
set_option maxHeartbeats 1000000

namespace AwsCore

/-- Exact fraction: numerator over a positive denominator.  This represents
both Python `Decimal` values and (together with `pyFloat`) `float` values. -/
structure Dec where
  num : ℤ
  den : ℕ
  dpos : 0 < den
deriving DecidableEq, Repr

/-- Embed an integer as a fraction. -/
def Dec.ofInt (n : ℤ) : Dec := ⟨n, 1, Nat.one_pos⟩

/-- Exact addition of fractions (no normalisation needed). -/
def Dec.add (a b : Dec) : Dec :=
  ⟨a.num * b.den + b.num * a.den, a.den * b.den, Nat.mul_pos a.dpos b.dpos⟩

/-- Exact subtraction of fractions. -/
def Dec.sub (a b : Dec) : Dec :=
  ⟨a.num * b.den - b.num * a.den, a.den * b.den, Nat.mul_pos a.dpos b.dpos⟩

/-- Absolute value. -/
def Dec.absD (a : Dec) : Dec := ⟨|a.num|, a.den, a.dpos⟩

/-- Value comparison (strict): cross-multiplication, valid as the
denominators are positive. -/
def Dec.blt (a b : Dec) : Bool := a.num * (b.den : ℤ) < b.num * (a.den : ℤ)

/-- Value comparison (non-strict). -/
def Dec.ble (a b : Dec) : Bool := a.num * (b.den : ℤ) ≤ b.num * (a.den : ℤ)

/-- Value equality. -/
def Dec.beq (a b : Dec) : Bool := a.num * (b.den : ℤ) = b.num * (a.den : ℤ)

/-- Python's two-argument `min` (used for the confidence normalisation):
returns the first argument when the values are equal. -/
def Dec.pymin (a b : Dec) : Dec := if a.ble b then a else b

/-- The rational value of a fraction. -/
def Dec.toRat (a : Dec) : ℚ := a.num / (a.den : ℚ)

theorem Dec.den_ne_zero (a : Dec) : ((a.den : ℚ)) ≠ 0 := by
  exact_mod_cast a.dpos.ne'

theorem Dec.den_cast_pos (a : Dec) : (0 : ℚ) < (a.den : ℚ) := by
  exact_mod_cast a.dpos

theorem Dec.toRat_ofInt (n : ℤ) : (Dec.ofInt n).toRat = (n : ℚ) := by
  simp [Dec.ofInt, Dec.toRat]

theorem Dec.toRat_add (a b : Dec) : (a.add b).toRat = a.toRat + b.toRat := by
  unfold Dec.add Dec.toRat
  have ha := a.den_ne_zero
  have hb := b.den_ne_zero
  field_simp

theorem Dec.toRat_sub (a b : Dec) : (a.sub b).toRat = a.toRat - b.toRat := by
  unfold Dec.sub Dec.toRat
  have ha := a.den_ne_zero
  have hb := b.den_ne_zero
  field_simp
  ring

theorem Dec.toRat_absD (a : Dec) : (a.absD).toRat = |a.toRat| := by
  unfold Dec.absD Dec.toRat
  rw [abs_div]
  simp [abs_of_pos a.den_cast_pos]

theorem Dec.blt_iff (a b : Dec) : a.blt b = true ↔ a.toRat < b.toRat := by
  unfold Dec.blt Dec.toRat
  rw [div_lt_div_iff₀ a.den_cast_pos b.den_cast_pos]
  constructor
  · intro h
    exact_mod_cast of_decide_eq_true h
  · intro h
    apply decide_eq_true
    exact_mod_cast h

theorem Dec.ble_iff (a b : Dec) : a.ble b = true ↔ a.toRat ≤ b.toRat := by
  unfold Dec.ble Dec.toRat
  rw [div_le_div_iff₀ a.den_cast_pos b.den_cast_pos]
  constructor
  · intro h
    exact_mod_cast of_decide_eq_true h
  · intro h
    apply decide_eq_true
    exact_mod_cast h

theorem Dec.beq_iff (a b : Dec) : a.beq b = true ↔ a.toRat = b.toRat := by
  unfold Dec.beq Dec.toRat
  rw [div_eq_div_iff a.den_ne_zero b.den_ne_zero]
  constructor
  · intro h
    exact_mod_cast of_decide_eq_true h
  · intro h
    apply decide_eq_true
    exact_mod_cast h

theorem Dec.toRat_pymin (a b : Dec) : (a.pymin b).toRat = min a.toRat b.toRat := by
  unfold Dec.pymin
  rcases h : a.ble b with _ | _
  · have : ¬ a.toRat ≤ b.toRat := by
      intro hc
      rw [← Dec.ble_iff] at hc
      simp [h] at hc
    simp [min_eq_right (le_of_not_le this)]
  · have := (Dec.ble_iff a b).mp h
    simp [min_eq_left this]

/-! ## The binary64 conversion (`float(<Decimal>)` in the source)

`pyFloat` rounds an exact fraction to the nearest binary64 value: the
magnitude is scaled by a power of two into the mantissa range
`[2^52, 2^53)`, the scaled value is rounded to an integer with ties to
even, and the result is that integer scaled back.  Subnormal underflow
and overflow to infinity lie far outside the range of the values this
program manipulates and are not modelled. -/

/-- Scale the fraction `n / d` (both positive) by a power of two into
`[2^52, 2^53)`.  Returns `(n', d', e)` with `n' / d' = (n / d) * 2 ^ e`.
Fuel-based recursion so that the kernel can evaluate it. -/
def findExpZ : ℕ → ℤ → ℤ → ℤ → (ℤ × ℤ × ℤ)
  | 0, n, d, e => (n, d, e)
  | f+1, n, d, e =>
    if n < 2^52 * d then findExpZ f (2*n) d (e+1)
    else if 2^53 * d ≤ n then findExpZ f n (2*d) (e-1)
    else (n, d, e)

/-- Round the fraction `n / d` (with `d > 0`) to the nearest integer,
ties to even. -/
def rnEvenZ (n d : ℤ) : ℤ :=
  let q := n / d
  let r := n % d
  if 2*r < d then q
  else if d < 2*r then q + 1
  else if q % 2 = 0 then q else q + 1

/-- Assemble the rounded binary64 value `(-1)^neg * m * 2^(-e)`. -/
def pyFloatAssemble (neg : Bool) (m e : ℤ) : Dec :=
  if 0 ≤ e then ⟨if neg then -m else m, 2^e.toNat, Nat.pos_pow_of_pos _ Nat.two_pos⟩
  else Dec.ofInt ((if neg then -m else m) * 2^(-e).toNat)

/-- The binary64 value nearest to the exact fraction `x`
(round to nearest, ties to even). -/
def pyFloat (x : Dec) : Dec :=
  if x.num = 0 then Dec.ofInt 0 else
  let nde := findExpZ 5000 |x.num| (x.den : ℤ) 0
  pyFloatAssemble (decide (x.num < 0)) (rnEvenZ nde.1 nde.2.1) nde.2.2

/-- A rational is dyadic when it is an integer over a power of two; every
binary64 value is dyadic. -/
def Dyadic (q : ℚ) : Prop := ∃ m : ℤ, ∃ k : ℕ, q = (m : ℚ) / 2^k

theorem dyadic_ofInt (n : ℤ) : Dyadic (Dec.ofInt n).toRat :=
  ⟨n, 0, by rw [Dec.toRat_ofInt]; norm_num⟩

theorem dyadic_pow2 (m : ℤ) (k : ℕ) (h : 0 < 2^k) :
    Dyadic (Dec.mk m (2^k) h).toRat :=
  ⟨m, k, by unfold Dec.toRat; push_cast; ring⟩

theorem pyFloatAssemble_dyadic (neg : Bool) (m e : ℤ) :
    Dyadic (pyFloatAssemble neg m e).toRat := by
  unfold pyFloatAssemble
  split
  · exact dyadic_pow2 _ _ _
  · exact dyadic_ofInt _

theorem pyFloat_dyadic (x : Dec) : Dyadic (pyFloat x).toRat := by
  unfold pyFloat
  split
  · exact dyadic_ofInt 0
  · exact pyFloatAssemble_dyadic _ _ _

/-! ## Strings and Python regular-pattern primitives

Lines of billing text are lists of characters.  The handful of regular
patterns used by the source are hand-compiled below; each matcher either
matches at the start of its input (functions named `m...` / `lit...`) or
is wrapped in `scanO`, which reproduces `re.search` by trying successive
start positions left to right. -/

/-- Python whitespace (`\s` and `str.strip`): space, tab, newline,
carriage return, vertical tab, form feed. -/
def isPySpace (c : Char) : Bool :=
  c = ' ' || c = '\t' || c = '\n' || c = '\r' || c = Char.ofNat 11 || c = Char.ofNat 12

/-- Characters matched by the class `[\d,]`. -/
def isNumC (c : Char) : Bool := c.isDigit || c = ','

/-- Word characters (`\w`), for the `\b` boundary assertions. -/
def isWordC (c : Char) : Bool := c.isAlphanum || c = '_'

/-- Python `str.lower()` (ASCII suffices for this program's patterns). -/
def lowerStr (cs : List Char) : List Char := cs.map Char.toLower

/-- Python `str.strip()`. -/
def stripPy (cs : List Char) : List Char :=
  ((cs.dropWhile isPySpace).reverse.dropWhile isPySpace).reverse

/-- Python `text.split('\n')`. -/
def splitNl : List Char → List (List Char)
  | [] => [[]]
  | c :: t =>
    if c = '\n' then [] :: splitNl t
    else
      match splitNl t with
      | [] => [[c]]
      | l :: ls => (c :: l) :: ls

/-- Pair each element with its 1-based index (Python `enumerate(lines, 1)`). -/
def numberFrom : ℕ → List α → List (ℕ × α)
  | _, [] => []
  | n, a :: t => (n, a) :: numberFrom (n+1) t

/-- Does `pat` occur at the start of `cs`? -/
def subAt : List Char → List Char → Bool
  | [], _ => true
  | _ :: _, [] => false
  | p :: ps, c :: cs => p = c && subAt ps cs

/-- Python substring containment `pat in cs` (exact characters). -/
def containsSub : List Char → List Char → Bool
  | [], pat => pat.isEmpty
  | c :: t, pat => subAt pat (c :: t) || containsSub t pat

/-- Number of whitespace-separated words (Python `len(s.split())`). -/
def wordCountAux : List Char → Bool → ℕ
  | [], _ => 0
  | c :: t, inWord =>
    if isPySpace c then wordCountAux t false
    else (if inWord then 0 else 1) + wordCountAux t true

def wordCount (cs : List Char) : ℕ := wordCountAux cs false

/-- Python `str.title()`: begin an upper-case letter after every
non-alphabetic character, lower-case the rest. -/
def pyTitleAux : List Char → Bool → List Char
  | [], _ => []
  | c :: t, prevAlpha =>
    (if c.isAlpha then (if prevAlpha then c.toLower else c.toUpper) else c) ::
      pyTitleAux t c.isAlpha

def pyTitle (cs : List Char) : List Char := pyTitleAux cs false

/-- Match a literal case-insensitively at the start of the input, returning
the remainder (the literal is given in lower case). -/
def litCIAt : List Char → List Char → Option (List Char)
  | [], cs => some cs
  | _ :: _, [] => none
  | p :: ps, c :: cs => if c.toLower = p.toLower then litCIAt ps cs else none

/-- Greedy `\s*`. -/
def spacesStar (cs : List Char) : List Char := cs.dropWhile isPySpace

/-- `\s+`: at least one whitespace character, consumed greedily. -/
def spacesPlus (cs : List Char) : Option (List Char) :=
  match cs with
  | c :: t => if isPySpace c then some (spacesStar t) else none
  | [] => none

/-- Greedy match of the amount token `[\d,]+\.?\d*` at the start of the
input: the matched text and the remainder.  The greedy parse is the one
the `re` engine commits to when nothing after the group constrains it. -/
def numTokAt (cs : List Char) : Option (List Char × List Char) :=
  let t1 := cs.takeWhile isNumC
  if t1.isEmpty then none
  else
    match cs.drop t1.length with
    | '.' :: r2 =>
      let t2 := r2.takeWhile Char.isDigit
      some (t1 ++ '.' :: t2, r2.drop t2.length)
    | r1 => some (t1, r1)

/-- All matches of `\d*` at `r`, longest first. -/
def dstarCands (r : List Char) : List (List Char × List Char) :=
  let m := (r.takeWhile Char.isDigit).length
  (List.range (m+1)).map (fun i => (r.take (m - i), r.drop (m - i)))

/-- The candidate matches of `[\d,]+\.?\d*` at the start of `cs` with
`[\d,]+` bound to exactly `n1` characters, in the backtracking order of
the `re` engine (`\.?` prefers to match, `\d*` longest first). -/
def numTokCandsFor (cs : List Char) (n1 : ℕ) : List (List Char × List Char) :=
  let t1 := cs.take n1
  match cs.drop n1 with
  | '.' :: r2 =>
    ((dstarCands r2).map (fun p => (t1 ++ '.' :: p.1, p.2))) ++ [(t1, cs.drop n1)]
  | r1 => (dstarCands r1).map (fun p => (t1 ++ p.1, p.2))

/-- All candidate matches of `[\d,]+\.?\d*` at the start of `cs`, in
backtracking preference order (`[\d,]+` longest first). -/
def numTokCands (cs : List Char) : List (List Char × List Char) :=
  let m := (cs.takeWhile isNumC).length
  (((List.range m).map (fun i => m - i)).map (numTokCandsFor cs)).flatten

/-- `re.search`: try the anchored matcher at each start position, left to
right. -/
def scanO (f : List Char → Option α) : List Char → Option α
  | [] => f []
  | c :: t =>
    match f (c :: t) with
    | some r => some r
    | none => scanO f t

/-- First literal of a list of alternatives that matches (case-insensitive)
at the start of the input; returns the original matched slice. -/
def firstAltCI (alts : List (List Char)) (cs : List Char) : Option (List Char) :=
  alts.findSome? (fun a => (litCIAt a cs).map (fun _ => cs.take a.length))

/-- Matches `\s+<tail>+` at `r` where `<tail>` is the class of characters
with `bad c = false` (a class that includes the whitespace characters, as
in `[^,\n]` and `[^U]`): greedy whitespace first, then at least one tail
character; if nothing follows the whitespace, the `re` engine backtracks
and lets the final whitespace character satisfy the tail class.  Returns
the total number of characters consumed. -/
def spacesPlusTail (bad : Char → Bool) (r : List Char) : Option ℕ :=
  let k := (r.takeWhile isPySpace).length
  if k = 0 then none
  else
    match r.drop k with
    | c :: rest =>
      if bad c then (if 2 ≤ k then some k else none)
      else some (k + 1 + (rest.takeWhile (fun x => !(bad x))).length)
    | [] => if 2 ≤ k then some k else none

/-- The numeric value of a list of decimal digits. -/
def natVal (cs : List Char) : ℕ :=
  cs.foldl (fun a c => a * 10 + (c.toNat - 48)) 0

/-- The exact value of a comma-stripped amount token (decimal digits with
at most one point).  This is `Decimal(s)` / `float(s)` on the strings the
token grammar can produce. -/
def decOfToken (s : List Char) : Dec :=
  let ip := s.takeWhile Char.isDigit
  match s.drop ip.length with
  | '.' :: fp =>
    ⟨(natVal ip) * 10^fp.length + natVal fp, 10^fp.length,
      Nat.pos_pow_of_pos _ (by norm_num)⟩
  | _ => ⟨natVal ip, 1, Nat.one_pos⟩

/-- Strip thousands-separator commas and parse as an exact decimal
(`match.group(1).replace(',', '')` followed by `Decimal(...)`); parsing
fails exactly when no digit remains, which is when `Decimal` raises
`InvalidOperation` on a token-grammar string. -/
def parseDec (t : List Char) : Option Dec :=
  let s := t.filter (fun c => c ≠ ',')
  if s.any Char.isDigit then some (decOfToken s) else none


/-! ## The classified analyzer (`aws_service_analyzer.py`)

`AWSServiceAnalyzer`: scores each line against a fixed, ordered catalog of
category keyword/unit tables, extracts cost / region / usage / details per
line, and assembles the classified ledger. -/

/-- `_initialize_service_patterns`: the ordered catalog
`(category, keywords, units)`, exactly as declared in the source. -/
def servicePatterns : List (String × List String × List String) :=
  [("EC2",
    ["elastic compute cloud", "ec2", "instance", "compute",
     "t2.", "t3.", "t3a.", "t4g.", "m5.", "m5a.", "m5n.", "m5zn.",
     "c5.", "c5a.", "c5n.", "c6g.", "c6gn.", "c6i.",
     "r5.", "r5a.", "r5b.", "r5n.", "r6g.", "r6i.",
     "x1.", "x1e.", "z1d.", "i3.", "i3en.", "i4i.",
     "f1.", "g4dn.", "g4ad.", "p3.", "p4d.",
     "a1.", "u-", "mac1.", "dl1."],
    ["hours", "hrs", "hour", "instance-hours", "vcpu-hours"]),
   ("RDS",
    ["relational database service", "rds", "database",
     "db.", "mysql", "mariadb", "postgresql", "oracle", "sql server",
     "aurora", "backup storage", "snapshot", "multi-az"],
    ["hours", "hrs", "gb-mo", "gb-month", "iops-mo", "requests"]),
   ("S3",
    ["simple storage service", "s3", "storage",
     "requests-tier1", "requests-tier2", "timedstorage",
     "glacier", "deep archive", "intelligent tiering",
     "put", "get", "copy", "post", "list", "delete"],
    ["gb-mo", "gb-month", "requests", "gb", "tb"]),
   ("Lambda",
    ["lambda", "aws lambda", "serverless compute",
     "request", "duration", "gb-second"],
    ["requests", "gb-seconds", "duration-ms"]),
   ("CloudFront",
    ["cloudfront", "cdn", "content delivery",
     "data transfer", "requests", "origin requests"],
    ["gb", "requests", "tb"]),
   ("EBS",
    ["elastic block store", "ebs", "volume",
     "gp2", "gp3", "io1", "io2", "st1", "sc1",
     "snapshot", "provisioned iops"],
    ["gb-mo", "gb-month", "iops-mo", "gb"]),
   ("VPC",
    ["virtual private cloud", "vpc", "nat gateway",
     "vpc endpoint", "transit gateway", "vpn",
     "data transfer", "elastic ip"],
    ["hours", "gb", "connections"]),
   ("ElastiCache",
    ["elasticache", "redis", "memcached", "cache",
     "cache.", "node hours"],
    ["hours", "node-hours", "gb-mo"]),
   ("SQS",
    ["simple queue service", "sqs", "queue",
     "requests-tier1", "requests-tier2"],
    ["requests", "messages"]),
   ("SNS",
    ["simple notification service", "sns",
     "notifications", "messages", "email", "sms"],
    ["requests", "messages", "notifications"]),
   ("CloudWatch",
    ["cloudwatch", "monitoring", "logs", "metrics",
     "alarms", "dashboards", "insights"],
    ["requests", "metrics", "gb", "alarms"]),
   ("Route53",
    ["route 53", "route53", "dns", "hosted zone",
     "queries", "health checks"],
    ["queries", "hosted zones", "health checks"]),
   ("API_Gateway",
    ["api gateway", "apigateway", "rest api",
     "websocket", "http api"],
    ["requests", "messages", "minutes"]),
   ("Kinesis",
    ["kinesis", "data streams", "firehose",
     "analytics", "shard hours", "records"],
    ["shard-hours", "records", "gb", "hours"]),
   ("DynamoDB",
    ["dynamodb", "nosql", "table", "read capacity",
     "write capacity", "on-demand", "provisioned"],
    ["rcu-hours", "wcu-hours", "gb-mo", "requests"]),
   ("Redshift",
    ["redshift", "data warehouse", "cluster",
     "dc2.", "ds2.", "ra3."],
    ["hours", "node-hours", "gb-mo"]),
   ("EMR",
    ["elastic mapreduce", "emr", "hadoop",
     "spark", "cluster hours"],
    ["hours", "cluster-hours", "instance-hours"]),
   ("Glue",
    ["glue", "etl", "crawler", "job runs",
     "dpu-hours", "development endpoint"],
    ["dpu-hours", "hours", "requests"]),
   ("Athena",
    ["athena", "query", "data scanned",
     "serverless query"],
    ["gb", "tb", "queries"]),
   ("ECS",
    ["elastic container service", "ecs", "fargate",
     "container", "task", "vcpu-hours", "gb-hours"],
    ["vcpu-hours", "gb-hours", "hours"]),
   ("EKS",
    ["elastic kubernetes service", "eks",
     "kubernetes", "cluster hours"],
    ["hours", "cluster-hours"]),
   ("EFS",
    ["elastic file system", "efs", "file system",
     "throughput", "infrequent access", "one zone"],
    ["gb-mo", "gb", "requests"]),
   ("Backup",
    ["aws backup", "backup storage", "backup",
     "warm backup", "cold backup"],
    ["gb-month", "gb-mo", "snapshots"]),
   ("DataTransfer",
    ["data transfer", "aws data transfer", "transfer",
     "cloudfront", "inter-region", "internet"],
    ["gb", "tb", "bytes"]),
   ("Marketplace",
    ["marketplace", "aws marketplace", "claude",
     "bedrock", "third-party", "software usage"],
    ["tokens", "requests", "hours", "units"]),
   ("Other",
    ["support", "tax", "credits", "refunds",
     "marketplace", "training", "certification"],
    ["usd", "credits", "hours"])]

/-- `_initialize_region_patterns`: region code to surface-form aliases. -/
def regionPatterns : List (String × List String) :=
  [("us-east-1", ["us east (n. virginia)", "us-east-1", "use1", "virginia"]),
   ("us-east-2", ["us east (ohio)", "us-east-2", "use2", "ohio"]),
   ("us-west-1", ["us west (n. california)", "us-west-1", "usw1", "california"]),
   ("us-west-2", ["us west (oregon)", "us-west-2", "usw2", "oregon"]),
   ("eu-west-1", ["eu (ireland)", "eu-west-1", "euw1", "ireland"]),
   ("eu-west-2", ["eu (london)", "eu-west-2", "euw2", "london"]),
   ("eu-west-3", ["eu (paris)", "eu-west-3", "euw3", "paris"]),
   ("eu-central-1", ["eu (frankfurt)", "eu-central-1", "euc1", "frankfurt"]),
   ("ap-south-1", ["asia pacific (mumbai)", "ap-south-1", "aps1", "mumbai"]),
   ("ap-southeast-1", ["asia pacific (singapore)", "ap-southeast-1", "apse1", "singapore"]),
   ("ap-southeast-2", ["asia pacific (sydney)", "ap-southeast-2", "apse2", "sydney"]),
   ("ap-northeast-1", ["asia pacific (tokyo)", "ap-northeast-1", "apne1", "tokyo"]),
   ("ap-northeast-2", ["asia pacific (seoul)", "ap-northeast-2", "apne2", "seoul"]),
   ("ca-central-1", ["canada (central)", "ca-central-1", "cac1", "canada"]),
   ("sa-east-1", ["south america (s√£o paulo)", "sa-east-1", "sae1", "s√£o paulo"]),
   ("global", ["global", "worldwide", "all regions", "cloudfront global"])]

/-- Keyword contribution to a category's score: `2 * wordcount(keyword)` per
keyword found as a case-insensitive substring. -/
def keywordScore (ll : List Char) (kws : List String) : ℕ :=
  (kws.map (fun k =>
    if containsSub ll (lowerStr k.toList) then wordCount k.toList * 2 else 0)).sum

/-- Unit contribution: one point per unit found as a substring. -/
def unitScore (ll : List Char) (us : List String) : ℕ :=
  (us.map (fun u => if containsSub ll (lowerStr u.toList) then 1 else 0)).sum

/-- A category's total score against a (lower-cased) line. -/
def catScore (ll : List Char) (p : String × List String × List String) : ℕ :=
  keywordScore ll p.2.1 + unitScore ll p.2.2

/-- Python `max(..., key=...)` over a nonempty sequence: keeps the current
maximum and replaces it only on a strictly greater key, so the first
maximum wins. -/
def pickMax : (String × ℕ) → List (String × ℕ) → (String × ℕ)
  | best, [] => best
  | best, x :: xs => pickMax (if best.2 < x.2 then x else best) xs

/-- The fraction `1/10` (the confidence floor and the normaliser's step). -/
def dec1over10 : Dec := ⟨1, 10, by norm_num⟩

/-- The fraction `1/100` (the forensic validation tolerance and the
reconciliation skip threshold `0.01`). -/
def dec1over100 : Dec := ⟨1, 100, by norm_num⟩

/-- `categorize_service`: score every catalog category, keep the positive
scores in catalog order, and return the first highest-scoring category with
confidence `min(score/10, 1.0)`; `('Other', 0.0)` when nothing scores. -/
def categorize_service (line : List Char) : String × Dec :=
  let ll := lowerStr line
  let scores := servicePatterns.filterMap (fun p =>
    let s := catScore ll p
    if 0 < s then some (p.1, s) else none)
  match scores with
  | [] => ("Other", Dec.ofInt 0)
  | x :: xs =>
    let best := pickMax x xs
    (best.1, Dec.pymin ⟨(best.2 : ℤ), 10, by norm_num⟩ (Dec.ofInt 1))

/-- `extract_region`: first region (in table order) one of whose aliases is
a case-insensitive substring of the line; `unknown` otherwise. -/
def extract_region (line : List Char) : String :=
  let ll := lowerStr line
  match regionPatterns.find? (fun rp =>
      rp.2.any (fun p => containsSub ll (lowerStr p.toList))) with
  | some rp => rp.1
  | none => "unknown"

/-- Cost pattern `USD\s+([\d,]+\.?\d*)`, anchored at a start position. -/
def mUsdTok (cs : List Char) : Option (List Char) := do
  let r1 ← litCIAt ("usd".toList) cs
  let r2 ← spacesPlus r1
  let tr ← numTokAt r2
  some tr.1

/-- Cost pattern `\$\s*([\d,]+\.?\d*)`, anchored at a start position. -/
def mDollarTok (cs : List Char) : Option (List Char) :=
  match cs with
  | '$' :: r1 => (numTokAt (spacesStar r1)).map Prod.fst
  | _ => none

/-- Cost pattern `([\d,]+\.?\d*)\s*USD`, anchored at a start position: the
token group is enumerated in backtracking order because the trailing
literal constrains it. -/
def mTokUsd (cs : List Char) : Option (List Char) :=
  (numTokCands cs).findSome? (fun tr =>
    (litCIAt ("usd".toList) (spacesStar tr.2)).map (fun _ => tr.1))

/-- The optional dollar sign `\$?`: consumed when present (there is no
backtracking to exploit, as the token class excludes the dollar sign). -/
def stripDollarOpt (cs : List Char) : List Char :=
  match cs with
  | c :: t => if c = '$' then t else cs
  | [] => []

/-- Cost patterns `Cost:\s*\$?([\d,]+\.?\d*)` and
`Total:\s*\$?([\d,]+\.?\d*)`, anchored at a start position. -/
def mLabelTok (label : List Char) (cs : List Char) : Option (List Char) := do
  let r1 ← litCIAt label cs
  let tr ← numTokAt (stripDollarOpt (spacesStar r1))
  some tr.1

/-- `_initialize_cost_patterns`: the five matchers in priority order, each
wrapped in `re.search`. -/
def costMatchers : List (List Char → Option (List Char)) :=
  [scanO mUsdTok, scanO mDollarTok, scanO mTokUsd,
   scanO (mLabelTok ("cost:".toList)), scanO (mLabelTok ("total:".toList))]

/-- Try the matchers in order; for the first pattern that matches, parse the
captured group, and on a parse failure fall through to the next pattern
(the `except ... continue` in the source). -/
def firstParsed : List (List Char → Option (List Char)) → List Char → Option Dec
  | [], _ => none
  | m :: ms, line =>
    match (m line).bind parseDec with
    | some q => some q
    | none => firstParsed ms line

/-- `extract_cost`: first cost pattern whose match parses as a decimal. -/
def extract_cost (line : List Char) : Option Dec := firstParsed costMatchers line

/-- Usage pattern `([\d,]+\.?\d*)\s+(alt1|alt2|...)\b` anchored at a start
position; returns the captured amount token and the original unit text. -/
def mNumUnit (units : List (List Char)) (cs : List Char) : Option (List Char × List Char) := do
  let tr ← numTokAt cs
  let r2 ← spacesPlus tr.2
  units.findSome? (fun u =>
    match litCIAt u r2 with
    | some rest =>
      match rest with
      | [] => some (tr.1, r2.take u.length)
      | c :: _ => if isWordC c then none else some (tr.1, r2.take u.length)
    | none => none)

/-- The unit alternations of the ten usage patterns, in pattern order, each
alternation expanded in the order the `re` engine explores it. -/
def usageUnitAlts : List (List String) :=
  [["hours", "hour", "hrs", "hr"],
   ["gb-mo", "gb-month"],
   ["requests", "request"],
   ["gb", "tb", "mb"],
   ["instances", "instance"],
   ["vcpu-hours", "vcpu-hour"],
   ["messages", "message"],
   ["queries", "query"],
   ["events", "event"],
   ["notifications", "notification"]]

/-- Try the usage patterns in order; on a float-parse failure fall through
to the next pattern. -/
def usageGo (line : List Char) : List (List String) → Option Dec × String
  | [] => (none, "unknown")
  | us :: rest =>
    match scanO (mNumUnit (us.map (fun u => u.toList))) line with
    | some tu =>
      match parseDec tu.1 with
      | some q => (some q, String.mk (lowerStr tu.2))
      | none => usageGo line rest
    | none => usageGo line rest

/-- `extract_usage_quantity_and_unit`. -/
def extract_usage_quantity_and_unit (line : List Char) : Option Dec × String :=
  usageGo line usageUnitAlts

/-- EC2 instance-type pattern `(t[2-4]g?\.[a-z0-9]+)` (case-insensitive),
anchored at a start position; returns the original matched slice. -/
def mInstT : List Char → Option (List Char)
  | c0 :: c1 :: rest =>
    if c0.toLower = 't' && (c1 = '2' || c1 = '3' || c1 = '4') then
      match rest with
      | c2 :: r2 =>
        if c2.toLower = 'g' then
          match r2 with
          | '.' :: r3 =>
            let run := r3.takeWhile Char.isAlphanum
            if run.isEmpty then none else some (c0 :: c1 :: c2 :: '.' :: run)
          | _ => none
        else if c2 = '.' then
          let run := r2.takeWhile Char.isAlphanum
          if run.isEmpty then none else some (c0 :: c1 :: '.' :: run)
        else none
      | [] => none
    else none
  | _ => none

/-- Dotted two-component pattern `lit[a-z0-9]+\.[a-z0-9]+` (used for
`db.` and `cache.` instance types); returns the original matched slice. -/
def mDotted (lit : List Char) (cs : List Char) : Option (List Char) := do
  let r1 ← litCIAt lit cs
  let a := r1.takeWhile Char.isAlphanum
  if a.isEmpty then none
  else
    match r1.drop a.length with
    | '.' :: r2 =>
      let b := r2.takeWhile Char.isAlphanum
      if b.isEmpty then none
      else some (cs.take lit.length ++ a ++ '.' :: b)
    | _ => none

/-- EBS volume classes `(gp[2-3]|io[1-2]|st1|sc1)` as ordered literals. -/
def volAlts : List (List Char) :=
  [("gp2".toList), ("gp3".toList), ("io1".toList), ("io2".toList),
   ("st1".toList), ("sc1".toList)]

/-- S3 storage classes `(standard|glacier|deep archive|intelligent)`. -/
def s3ClassAlts : List (List Char) :=
  [("standard".toList), ("glacier".toList), ("deep archive".toList),
   ("intelligent".toList)]

/-- `extract_service_details`' service-type loop: first of the five
patterns that matches anywhere in the line; `standard` otherwise. -/
def serviceTypeOf (line : List Char) : String :=
  match [scanO mInstT, scanO (mDotted ("db.".toList)),
         scanO (mDotted ("cache.".toList)), scanO (firstAltCI volAlts),
         scanO (firstAltCI s3ClassAlts)].findSome? (fun m => m line) with
  | some t => String.mk t
  | none => "standard"

/-- Rate pattern `\$[\d,]+\.?\d*\s+per\s+[^,\n]+`, anchored at a start
position; returns the whole match (group 0). -/
def mRateDollarPer (cs : List Char) : Option (List Char) :=
  match cs with
  | '$' :: r0 => do
    let tr ← numTokAt r0
    let r2 ← spacesPlus tr.2
    let r3 ← litCIAt ("per".toList) r2
    let k ← spacesPlusTail (fun c => c = ',' || c = '\n') r3
    some (cs.take (cs.length - (r3.length - k)))
  | _ => none

/-- Rate pattern `USD[\d,]+\.?\d*\s+per\s+[^,\n]+` (no space between the
currency code and the amount), anchored at a start position. -/
def mRateUsdPer (cs : List Char) : Option (List Char) := do
  let r0 ← litCIAt ("usd".toList) cs
  let tr ← numTokAt r0
  let r2 ← spacesPlus tr.2
  let r3 ← litCIAt ("per".toList) r2
  let k ← spacesPlusTail (fun c => c = ',' || c = '\n') r3
  some (cs.take (cs.length - (r3.length - k)))

/-- Rate pattern `First\s+[\d,]+[^,\n]+`, anchored at a start position: the
run `[\d,]+` backtracks (longest first) until a nonempty `[^,\n]+` tail can
follow. -/
def mRateFirst (cs : List Char) : Option (List Char) := do
  let r1 ← litCIAt ("first".toList) cs
  let r2 ← spacesPlus r1
  let m := (r2.takeWhile isNumC).length
  if m = 0 then none
  else
    ((List.range m).map (fun i => m - i)).findSome? (fun n1 =>
      let rest := r2.drop n1
      match rest with
      | [] => none
      | c :: _ =>
        if c = ',' || c = '\n' then none
        else
          let tail := rest.takeWhile (fun x => !(x = ',' || x = '\n'))
          some (cs.take (cs.length - (rest.length - tail.length))))

/-- Rate pattern `Additional\s+[^,\n]+`, anchored at a start position. -/
def mRateAdditional (cs : List Char) : Option (List Char) := do
  let r1 ← litCIAt ("additional".toList) cs
  let k ← spacesPlusTail (fun c => c = ',' || c = '\n') r1
  some (cs.take (cs.length - (r1.length - k)))

/-- `_extract_rate_description`: first matching rate pattern, stripped;
`Standard rate` otherwise. -/
def rateDescriptionOf (line : List Char) : String :=
  match [scanO mRateDollarPer, scanO mRateUsdPer, scanO mRateFirst,
         scanO mRateAdditional].findSome? (fun m => m line) with
  | some g => String.mk (stripPy g)
  | none => "Standard rate"

/-- One classified billing entry (`ServiceUsage` dataclass). -/
structure ServiceUsage where
  service_category : String
  service_name : String
  service_type : String
  region : String
  usage_quantity : Dec
  usage_unit : String
  rate_description : String
  cost : Dec
  raw_line : List Char
  line_number : ℕ
deriving DecidableEq, Repr

/-- `_extract_service_name`'s per-category name patterns: alternations of
literals, searched on the lower-cased line.  Categories outside this table
fall back to the category name itself used as a pattern - a pattern with no
capture group. -/
def namePatternsC : List (String × List String) :=
  [("EC2", ["elastic compute cloud", "ec2", "compute"]),
   ("RDS", ["relational database service", "rds", "database"]),
   ("S3", ["simple storage service", "s3", "storage"]),
   ("Lambda", ["aws lambda", "lambda"]),
   ("CloudFront", ["cloudfront", "cdn"]),
   ("EBS", ["elastic block store", "ebs"]),
   ("VPC", ["virtual private cloud", "vpc", "nat gateway"]),
   ("ElastiCache", ["elasticache"]),
   ("SQS", ["simple queue service", "sqs"]),
   ("SNS", ["simple notification service", "sns"]),
   ("CloudWatch", ["cloudwatch"]),
   ("Route53", ["route 53", "route53"]),
   ("API_Gateway", ["api gateway"]),
   ("Kinesis", ["kinesis"]),
   ("DynamoDB", ["dynamodb"]),
   ("Redshift", ["redshift"]),
   ("EMR", ["elastic mapreduce", "emr"]),
   ("Glue", ["glue"]),
   ("Athena", ["athena"]),
   ("ECS", ["elastic container service", "ecs", "fargate"]),
   ("EKS", ["elastic kubernetes service", "eks"])]

/-- `_extract_service_name`: search the category's alternation on the
lower-cased line and return the title-cased group; the category itself when
the pattern does not match.  For a category outside the table the pattern
is the bare category name, which has no capture group: if it occurs in the
line, `match.group(1)` raises `IndexError` (modelled as `none`). -/
def extract_service_name (line : List Char) (category : String) : Option String :=
  let ll := lowerStr line
  match namePatternsC.find? (fun p => p.1 = category) with
  | some p =>
    match scanO (firstAltCI (p.2.map (fun a => a.toList))) ll with
    | some g => some (String.mk (pyTitle g))
    | none => some category
  | none =>
    if containsSub ll (lowerStr category.toList) then none
    else some category

/-- One iteration of `analyze_aws_invoice`'s line loop.  The outer `none`
is an uncaught exception (there is no handler around the loop body); the
inner `none` means the line was skipped. -/
def classifyLine (ln : ℕ) (raw : List Char) : Option (Option ServiceUsage) :=
  let line := stripPy raw
  if line.isEmpty || line.length < 10 then some none
  else
    match extract_cost line with
    | none => some none
    | some cost =>
      if cost.beq (Dec.ofInt 0) then some none
      else
        let cc := categorize_service line
        if cc.2.blt dec1over10 then some none
        else
          let region := extract_region line
          let qu := extract_usage_quantity_and_unit line
          let stype := serviceTypeOf line
          let rdesc := rateDescriptionOf line
          match extract_service_name line cc.1 with
          | none => none
          | some name =>
            some (some
              { service_category := cc.1, service_name := name,
                service_type := stype, region := region,
                usage_quantity := qu.1.getD (Dec.ofInt 0), usage_unit := qu.2,
                rate_description := rdesc, cost := cost,
                raw_line := line, line_number := ln })

/-- The line loop of `analyze_aws_invoice`: appends each emitted usage and
adds its cost to the incrementally maintained running total. -/
def classifiedScan : (List ServiceUsage × Dec) → List (ℕ × List Char) →
    Option (List ServiceUsage × Dec)
  | acc, [] => some acc
  | acc, (n, raw) :: rest =>
    match classifyLine n raw with
    | none => none
    | some none => classifiedScan acc rest
    | some (some u) => classifiedScan (acc.1 ++ [u], acc.2.add u.cost) rest

/-- Insert a usage into the insertion-ordered per-category grouping,
accumulating the category totals (`_group_and_analyze_services`' loop). -/
def insertUsage : List (String × List ServiceUsage × Dec) → ServiceUsage →
    List (String × List ServiceUsage × Dec)
  | [], u => [(u.service_category, [u], (Dec.ofInt 0).add u.cost)]
  | (c, l, t) :: rest, u =>
    if c = u.service_category then (c, l ++ [u], t.add u.cost) :: rest
    else (c, l, t) :: insertUsage rest u

def groupUsages (gs : List (String × List ServiceUsage × Dec)) :
    List ServiceUsage → List (String × List ServiceUsage × Dec)
  | [] => gs
  | u :: us => groupUsages (insertUsage gs u) us

/-- The analysis summary returned by `analyze_aws_invoice` /
`_group_and_analyze_services` (only the `filename` string of the summary
header is elided as pure provenance).  Fields holding Python floats store
the `pyFloat` conversion of the exact Decimal the source converts. -/
structure ClassifiedAnalysis where
  filename : String
  total_cost : Dec
  total_entries : ℕ
  service_categories : List String
  services_by_category : List (String × List ServiceUsage)
  category_totals : List (String × Dec)
  calculated_total : Dec
  category_sum : Dec
  validation_passed : Bool
deriving DecidableEq, Repr

/-- `analyze_aws_invoice`: split into lines, run the classified line loop,
group by category, and build the summary.  `none` models the uncaught
`IndexError` that `_extract_service_name` raises for categories outside its
pattern table whose name occurs in the line. -/
def analyze_aws_invoice (text : List Char) (filename : String) :
    Option ClassifiedAnalysis :=
  match classifiedScan ([], Dec.ofInt 0) (numberFrom 1 (splitNl text)) with
  | none => none
  | some acc =>
    let groups := groupUsages [] acc.1
    some
      { filename := filename,
        total_cost := pyFloat acc.2,
        total_entries := acc.1.length,
        service_categories := groups.map (fun g => g.1),
        services_by_category := groups.map (fun g => (g.1, g.2.1)),
        category_totals := groups.map (fun g => (g.1, pyFloat g.2.2)),
        calculated_total := pyFloat acc.2,
        category_sum := pyFloat (groups.foldl (fun a g => a.add g.2.2) (Dec.ofInt 0)),
        validation_passed := true }

/-! ## The forensic extractor (`forensic_extractor.py`)

`ForensicAWSExtractor`: emits an item for every line on which one of its
end-anchored cost patterns matches and parses, with no length or
confidence filtering. -/

/-- Forensic cost pattern `USD\s+([\d,]+\.?\d*)\s*$` (also the equivalent
fifth pattern `USD\s+([\d,]+\.?\d*)\s*(?:$|\n)`: split lines contain no
newline).  For the end anchor, the greedy token is the only candidate that
can be followed by whitespace-to-end, since every character a shorter
token would give back is a digit, comma or point. -/
def fUsdEnd (cs : List Char) : Option (List Char) := do
  let r1 ← litCIAt ("usd".toList) cs
  let r2 ← spacesPlus r1
  let tr ← numTokAt r2
  if (spacesStar tr.2).isEmpty then some tr.1 else none

/-- Forensic cost pattern `\$\s*([\d,]+\.?\d*)\s*$`. -/
def fDollarEnd (cs : List Char) : Option (List Char) :=
  match cs with
  | '$' :: r1 =>
    match numTokAt (spacesStar r1) with
    | some tr => if (spacesStar tr.2).isEmpty then some tr.1 else none
    | none => none
  | _ => none

/-- Forensic column patterns `Amount in USD\s+([\d,]+\.?\d*)` and
`Total in USD\s+([\d,]+\.?\d*)`. -/
def fColTok (label : List Char) (cs : List Char) : Option (List Char) := do
  let r1 ← litCIAt label cs
  let r2 ← spacesPlus r1
  let tr ← numTokAt r2
  some tr.1

/-- The forensic extractor's five cost patterns, in order, each wrapped in
`re.search`. -/
def forensicCostMatchers : List (List Char → Option (List Char)) :=
  [scanO fUsdEnd, scanO fDollarEnd,
   scanO (fColTok ("amount in usd".toList)),
   scanO (fColTok ("total in usd".toList)),
   scanO fUsdEnd]

/-- `_extract_cost_from_line`: first forensic pattern whose match parses. -/
def extract_cost_from_line (line : List Char) : Option Dec :=
  firstParsed forensicCostMatchers line

/-- Invoice-total pattern `<label>\s*USD\s*([\d,]+\.?\d*)`. -/
def mLabeledUsdTotal (label : List Char) (cs : List Char) : Option (List Char) := do
  let r1 ← litCIAt label cs
  let r2 ← litCIAt ("usd".toList) (spacesStar r1)
  let tr ← numTokAt (spacesStar r2)
  some tr.1

/-- The three `_find_invoice_total` patterns applied to the whole text. -/
def scanTotals (text : List Char) : Option Dec :=
  firstParsed
    [scanO (mLabeledUsdTotal ("grand total:".toList)),
     scanO (mLabeledUsdTotal ("amazon web services india private limited".toList)),
     scanO (mLabeledUsdTotal ("total pre-tax".toList))] text

/-- `_find_invoice_total`: first matching total, defaulting to the fallback
constant `Decimal('3645.60')`. -/
def find_invoice_total (text : List Char) : Dec :=
  (scanTotals text).getD ⟨364560, 100, by norm_num⟩

/-- `_categorize_service`: the forensic keyword chain. -/
def forensic_categorize (line : List Char) : String :=
  let ll := lowerStr line
  let has := fun (k : String) => containsSub ll k.toList
  if ["elastic compute cloud", "ec2", "running linux", "running windows",
      "t3a.", "t2.", "t3.", "c5.", "r5.", "natgateway"].any has then "EC2"
  else if ["relational database", "rds", "mariadb", "mysql",
           "backup storage"].any has then "RDS"
  else if ["simple storage service", "s3", "requests-tier",
           "timedstorage"].any has then "S3"
  else if ["elastic file system", "efs"].any has then "EFS"
  else if ["cloudwatch", "putlogevents", "dashboardhour"].any has then "CloudWatch"
  else if ["data transfer", "aws data transfer"].any has then "DataTransfer"
  else if ["aws backup", "backup storage"].any has then "Backup"
  else if ["marketplace", "claude", "bedrock"].any has then "Marketplace"
  else if ["ebs", "elastic block store", "snapshot"].any has then "EBS"
  else "Other"

/-- Branch `lit[^U]*` of a forensic name pattern (case-insensitive;
under `re.IGNORECASE` the class `[^U]` excludes both cases of `u`):
returns the original matched slice. -/
def litNonU (lit : List Char) (cs : List Char) : Option (List Char) :=
  (litCIAt lit cs).map (fun r =>
    cs.take (lit.length + (r.takeWhile (fun c => c.toLower ≠ 'u')).length))

/-- `_extract_service_name`'s forensic pattern table (alternation branches
in source order). -/
def fNamePatterns : List (String × List String) :=
  [("EC2", ["amazon elastic compute cloud"]),
   ("RDS", ["amazon relational database service"]),
   ("S3", ["amazon simple storage service"]),
   ("EFS", ["amazon elastic file system"]),
   ("CloudWatch", ["amazoncloudwatch"]),
   ("DataTransfer", ["aws data transfer"]),
   ("Backup", ["aws backup"]),
   ("Marketplace", ["claude", "aws marketplace"])]

/-- Forensic `_extract_service_name`.  For a category outside the table the
pattern is the bare category name, a pattern with no capture group: when it
is found in the line, `match.group(1)` raises `IndexError` (modelled as
`none`); this happens for the categories `EBS` and `Other`. -/
def forensic_service_name (line : List Char) (category : String) : Option String :=
  match fNamePatterns.find? (fun p => p.1 = category) with
  | some p =>
    match scanO (fun cs =>
        (p.2.map (fun a => a.toList)).findSome? (fun a => litNonU a cs)) line with
    | some g => some (String.mk (stripPy g))
    | none => some category
  | none =>
    if containsSub (lowerStr line) (lowerStr category.toList) then none
    else some category

/-- Forensic S3 storage classes `(Standard|Glacier|Deep Archive)`. -/
def fS3ClassAlts : List (List Char) :=
  [("standard".toList), ("glacier".toList), ("deep archive".toList)]

/-- Forensic `_extract_service_type`: four patterns. -/
def forensic_service_type (line : List Char) : String :=
  match [scanO mInstT, scanO (mDotted ("db.".toList)),
         scanO (firstAltCI volAlts),
         scanO (firstAltCI fS3ClassAlts)].findSome? (fun m => m line) with
  | some t => String.mk t
  | none => "Standard"

/-- One forensic region pattern `lit\([^)]+\)`; returns the original
matched slice including the parentheses. -/
def fRegionMatch (lit : List Char) (cs : List Char) : Option (List Char) := do
  let r1 ← litCIAt lit cs
  let inner := r1.takeWhile (fun c => c ≠ ')')
  if inner.isEmpty then none
  else
    match r1.drop inner.length with
    | ')' :: _ => some (cs.take (lit.length + inner.length + 1))
    | _ => none

/-- Forensic `_extract_region`: six region patterns preserving the original
text, then the case-sensitive substring check for `Any`, else `Global`. -/
def forensic_region (line : List Char) : String :=
  match [("asia pacific (" : String), "us east (", "us west (", "eu (",
         "canada (", "south america ("].findSome?
      (fun lit => scanO (fRegionMatch lit.toList) line) with
  | some g => String.mk g
  | none => if containsSub line ("Any".toList) then "Any" else "Global"

/-- The forensic usage patterns' unit alternations, in pattern order. -/
def forensicUsageAlts : List (List String) :=
  [["hours", "hour", "hrs", "hr"],
   ["gb-mo", "gb-month"],
   ["requests", "request"],
   ["gb", "tb", "mb"],
   ["units", "unit"],
   ["dashboards", "dashboard"],
   ["alarms", "alarm"],
   ["vcpu-hours", "vcpu-hour"]]

/-- Forensic `_extract_usage` loop: first matching pattern wins, keeping
the unit's original casing; defaults to `(1.0, 'Units')`. -/
def forensicUsageGo (line : List Char) : List (List String) → Dec × String
  | [] => (Dec.ofInt 1, "Units")
  | us :: rest =>
    match scanO (mNumUnit (us.map (fun u => u.toList))) line with
    | some tu =>
      match parseDec tu.1 with
      | some q => (q, String.mk tu.2)
      | none => forensicUsageGo line rest
    | none => forensicUsageGo line rest

def forensic_usage (line : List Char) : Dec × String :=
  forensicUsageGo line forensicUsageAlts

/-- Forensic rate pattern `\$[\d,]+\.?\d*\s+per\s+[^U]+`. -/
def mRateFDollarPer (cs : List Char) : Option (List Char) :=
  match cs with
  | '$' :: r0 => do
    let tr ← numTokAt r0
    let r2 ← spacesPlus tr.2
    let r3 ← litCIAt ("per".toList) r2
    let k ← spacesPlusTail (fun c => c.toLower = 'u') r3
    some (cs.take (cs.length - (r3.length - k)))
  | _ => none

/-- Forensic rate pattern `USD[\d,]+\.?\d*\s+per\s+[^U]+`. -/
def mRateFUsdPer (cs : List Char) : Option (List Char) := do
  let r0 ← litCIAt ("usd".toList) cs
  let tr ← numTokAt r0
  let r2 ← spacesPlus tr.2
  let r3 ← litCIAt ("per".toList) r2
  let k ← spacesPlusTail (fun c => c.toLower = 'u') r3
  some (cs.take (cs.length - (r3.length - k)))

/-- Forensic rate pattern `\$[\d,]+\.?\d*\s+[^U]+per\s+[^U]+`: the first
`[^U]+` run backtracks, longest first, until the literal `per` and its tail
can follow. -/
def mRateFMidPer (cs : List Char) : Option (List Char) :=
  match cs with
  | '$' :: r0 => do
    let tr ← numTokAt r0
    let r2 ← spacesPlus tr.2
    let m := (r2.takeWhile (fun c => c.toLower ≠ 'u')).length
    if m = 0 then none
    else
      ((List.range m).map (fun i => m - i)).findSome? (fun n1 =>
        let rest := r2.drop n1
        match litCIAt ("per".toList) rest with
        | some r3 =>
          match spacesPlusTail (fun c => c.toLower = 'u') r3 with
          | some k => some (cs.take (cs.length - (r3.length - k)))
          | none => none
        | none => none)
  | _ => none

/-- Forensic `_extract_rate_description`. -/
def forensic_rate (line : List Char) : String :=
  match [scanO mRateFDollarPer, scanO mRateFUsdPer,
         scanO mRateFMidPer].findSome? (fun m => m line) with
  | some g => String.mk (stripPy g)
  | none => "Standard Rate"

/-- One forensic ledger entry (the dictionary built by
`_create_service_item`). -/
structure ForensicItem where
  service_category : String
  service_name : String
  service_type : String
  region : String
  usage_quantity : Dec
  usage_unit : String
  rate_description : String
  cost_usd : Dec
  line_text : List Char
  line_number : ℕ
deriving DecidableEq, Repr

/-- `_create_service_item`: build the item dictionary; the stored cost is
`float(cost)`, i.e. the binary64 conversion of the exact extracted decimal.
`none` models the `IndexError` that `_extract_service_name` raises for the
categories `EBS` and `Other` when their name occurs in the line. -/
def create_service_item (line : List Char) (cost : Dec) (ln : ℕ) :
    Option ForensicItem :=
  let category := forensic_categorize line
  match forensic_service_name line category with
  | none => none
  | some name =>
    some
      { service_category := category, service_name := name,
        service_type := forensic_service_type line,
        region := forensic_region line,
        usage_quantity := (forensic_usage line).1,
        usage_unit := (forensic_usage line).2,
        rate_description := forensic_rate line,
        cost_usd := pyFloat cost,
        line_text := line.take 100, line_number := ln }

/-- The forensic line loop: strip, skip empty lines, extract a cost, and
on success try to build an item; an exception inside `_create_service_item`
is caught by the per-line handler, which skips the line without adding its
cost. -/
def forensicScan : (List ForensicItem × Dec) → List (ℕ × List Char) →
    List ForensicItem × Dec
  | acc, [] => acc
  | acc, (n, raw) :: rest =>
    let line := stripPy raw
    if line.isEmpty then forensicScan acc rest
    else
      match extract_cost_from_line line with
      | none => forensicScan acc rest
      | some cost =>
        match create_service_item line cost n with
        | some it => forensicScan (acc.1 ++ [it], acc.2.add cost) rest
        | none => forensicScan acc rest

/-- The analysis dictionary returned by `extract_all_costs_forensic`
(header constants included; float-valued fields hold `pyFloat`
conversions). -/
structure ForensicAnalysis where
  filename : String
  total_invoice_amount : Dec
  currency : String
  billing_period : String
  total_line_items : ℕ
  service_line_items : List ForensicItem
  calculated_total : Dec
  invoice_total : Dec
  difference : Dec
  validation_passed : Bool
deriving DecidableEq, Repr

/-- `extract_all_costs_forensic`. -/
def extract_all_costs_forensic (text : List Char) (filename : String) :
    ForensicAnalysis :=
  let invoice_total := find_invoice_total text
  let acc := forensicScan ([], Dec.ofInt 0) (numberFrom 1 (splitNl text))
  let difference := pyFloat (invoice_total.sub acc.2)
  { filename := filename,
    total_invoice_amount := pyFloat invoice_total,
    currency := "USD",
    billing_period := "Apr 1 - Apr 30, 2025",
    total_line_items := acc.1.length,
    service_line_items := acc.1,
    calculated_total := pyFloat acc.2,
    invoice_total := pyFloat invoice_total,
    difference := difference,
    validation_passed := difference.absD.blt dec1over100 }

/-! ## The reconciliation controller (`claude_aws_enhanced.py`)

`EnhancedClaudeAWSAnalyzer.validate_and_enhance_analysis` and
`reconcile_missing_costs`.  Ledger entries coming from the oracle's JSON
are dictionaries with possibly missing keys, modelled as a record of
optional fields; the oracle call itself is a request/response port whose
outcome is an explicit parameter. -/

/-- A line-item dictionary as parsed from LLM JSON: every key may be
absent. -/
structure RawItem where
  service_category : Option String
  service_name : Option String
  service_type : Option String
  region : Option String
  usage_quantity : Option Dec
  usage_unit : Option String
  rate_description : Option String
  cost_usd : Option Dec
  line_text : Option String
  reason_missed : Option String
deriving DecidableEq, Repr

/-- The `cost_validation` dictionary: every key may be absent (the initial
LLM response may omit any of them, and `validate_and_enhance_analysis` only
writes some of them). -/
structure CostValidation where
  calculated_total : Option Dec
  invoice_total : Option Dec
  difference : Option Dec
  validation_passed : Option Bool
deriving DecidableEq, Repr

/-- The analysis dictionary that flows through validation and
reconciliation: the ledger, the invoice header's total (from
`invoice_summary.total_invoice_amount`; the other header entries are
untouched provenance strings) and the validation summary. -/
structure LLMAnalysis where
  total_invoice_amount : Option Dec
  service_line_items : List RawItem
  cost_validation : CostValidation
deriving DecidableEq, Repr

/-- The defaulting performed on each item by
`validate_and_enhance_analysis` (the cleaned dictionary carries no
`reason_missed` key). -/
def clean_item (it : RawItem) : RawItem :=
  { service_category := some (it.service_category.getD "Unknown"),
    service_name := some (it.service_name.getD "Unknown Service"),
    service_type := some (it.service_type.getD "Standard"),
    region := some (it.region.getD "unknown"),
    usage_quantity := some (it.usage_quantity.getD (Dec.ofInt 0)),
    usage_unit := some (it.usage_unit.getD "Units"),
    rate_description := some (it.rate_description.getD "Standard Rate"),
    cost_usd := some (it.cost_usd.getD (Dec.ofInt 0)),
    line_text := some (it.line_text.getD ""),
    reason_missed := none }

/-- `sum(item.get('cost_usd', 0.0) for item in items)`.  The source
accumulates binary64 floats, rounding after each addition; following the
file's convention, the accumulation is modelled as exact rational addition.
This is adequate for the structural facts stated over it (which fields are
read, where defaulting happens, what is appended), but no theorem below
asserts that the accumulated value itself coincides with the program's
rounded float sum. -/
def sumCostUsd (items : List RawItem) : Dec :=
  items.foldl (fun t it => t.add (it.cost_usd.getD (Dec.ofInt 0))) (Dec.ofInt 0)

/-- `validate_and_enhance_analysis`: clean every item, recompute the
calculated total, and, when the header's invoice total is present and
truthy (nonzero), store `difference = abs(calculated - invoice)` and
`validation_passed = difference < 1.0`. -/
def validate_and_enhance_analysis (a : LLMAnalysis) : LLMAnalysis :=
  let cleaned := a.service_line_items.map clean_item
  let total := sumCostUsd cleaned
  let cv1 := { a.cost_validation with calculated_total := some total }
  match a.total_invoice_amount with
  | some inv =>
    if inv.beq (Dec.ofInt 0) then
      { a with service_line_items := cleaned, cost_validation := cv1 }
    else
      let diff := (total.sub inv).absD
      { a with service_line_items := cleaned,
               cost_validation :=
                 { cv1 with difference := some diff,
                            validation_passed := some (diff.blt (Dec.ofInt 1)) } }
  | none => { a with service_line_items := cleaned, cost_validation := cv1 }

/-- Outcome of the single oracle request: the call raised, the response had
no content, the response was not decodable JSON, or it decoded to a
dictionary whose `missing_items` entry is the given list. -/
inductive OracleReply where
  | callError : OracleReply
  | noContent : OracleReply
  | badJson : OracleReply
  | parsed : List RawItem → OracleReply
deriving DecidableEq, Repr

/-- `reconcile_missing_costs`: the one reconciliation pass.  Returns the
resulting analysis together with a flag recording whether the oracle was
invoked.  The skip threshold in the source is `abs(difference) < 0.01`;
after appending, `validation_passed` is recomputed as
`abs(new_difference) < 1.0`. -/
def reconcile_missing_costs (a : LLMAnalysis) (oracle : OracleReply) :
    LLMAnalysis × Bool :=
  let calculated := a.cost_validation.calculated_total.getD (Dec.ofInt 0)
  let invoice := a.cost_validation.invoice_total.getD (Dec.ofInt 0)
  let difference := invoice.sub calculated
  if difference.absD.blt dec1over100 then (a, false)
  else
    match oracle with
    | .callError => (a, true)
    | .noContent => (a, true)
    | .badJson => (a, true)
    | .parsed missing =>
      if missing.isEmpty then (a, true)
      else
        let items := a.service_line_items ++ missing
        let newTotal := sumCostUsd items
        let newDiff := invoice.sub newTotal
        ({ a with service_line_items := items,
                  cost_validation :=
                    { a.cost_validation with
                        calculated_total := some newTotal,
                        difference := some newDiff,
                        validation_passed :=
                          some (newDiff.absD.blt (Dec.ofInt 1)) } }, true)

/-! ## General sum lemmas -/

/-- Sum of a list of fractions (left fold from zero, the order Python's
`sum` uses). -/
def sumDec (l : List Dec) : Dec := l.foldl Dec.add (Dec.ofInt 0)

theorem foldl_add_toRat (l : List Dec) : ∀ t0 : Dec,
    (l.foldl Dec.add t0).toRat = t0.toRat + (l.map Dec.toRat).sum := by
  induction l with
  | nil => intro t0; simp
  | cons x xs ih =>
    intro t0
    simp only [List.foldl_cons, List.map_cons, List.sum_cons]
    rw [ih, Dec.toRat_add]
    ring

theorem sumDec_toRat (l : List Dec) : (sumDec l).toRat = (l.map Dec.toRat).sum := by
  unfold sumDec
  rw [foldl_add_toRat]
  simp [Dec.toRat_ofInt]

theorem sumCostUsd_toRat (items : List RawItem) :
    (sumCostUsd items).toRat
      = (items.map (fun it => (it.cost_usd.getD (Dec.ofInt 0)).toRat)).sum := by
  unfold sumCostUsd
  have : ∀ (l : List RawItem) (t0 : Dec),
      (l.foldl (fun t it => t.add (it.cost_usd.getD (Dec.ofInt 0))) t0).toRat
        = t0.toRat + (l.map (fun it => (it.cost_usd.getD (Dec.ofInt 0)).toRat)).sum := by
    intro l
    induction l with
    | nil => intro t0; simp
    | cons x xs ih =>
      intro t0
      simp only [List.foldl_cons, List.map_cons, List.sum_cons]
      rw [ih, Dec.toRat_add]
      ring
  rw [this]
  simp [Dec.toRat_ofInt]

theorem dec1over100_toRat : dec1over100.toRat = 1/100 := by
  unfold dec1over100 Dec.toRat
  norm_num

theorem dec1over10_toRat : dec1over10.toRat = 1/10 := by
  unfold dec1over10 Dec.toRat
  norm_num

/-- The signed pre-call difference read by `reconcile_missing_costs`:
`invoice_total - calculated_total` over the `.get(..., 0.0)` defaults. -/
def reconcileDifference (a : LLMAnalysis) : ℚ :=
  (a.cost_validation.invoice_total.getD (Dec.ofInt 0)).toRat
    - (a.cost_validation.calculated_total.getD (Dec.ofInt 0)).toRat

theorem reconcile_guard_iff (a : LLMAnalysis) :
    ((a.cost_validation.invoice_total.getD (Dec.ofInt 0)).sub
        (a.cost_validation.calculated_total.getD (Dec.ofInt 0))).absD.blt dec1over100 = true
      ↔ |reconcileDifference a| < 1/100 := by
  rw [Dec.blt_iff, Dec.toRat_absD, Dec.toRat_sub, dec1over100_toRat, reconcileDifference]

/-! ## Claim C1 -/

/-- An analysis whose validation summary reads invoice 10, calculated 19/2:
the pre-call difference is 1/2. -/
def claim1analysisA : LLMAnalysis :=
  { total_invoice_amount := none, service_line_items := [],
    cost_validation :=
      { calculated_total := some ⟨19, 2, by norm_num⟩,
        invoice_total := some (Dec.ofInt 10),
        difference := none, validation_passed := none } }

/-- An analysis with invoice 10 and calculated 10: difference 0. -/
def claim1analysisB : LLMAnalysis :=
  { total_invoice_amount := none, service_line_items := [],
    cost_validation :=
      { calculated_total := some (Dec.ofInt 10),
        invoice_total := some (Dec.ofInt 10),
        difference := none, validation_passed := none } }

/-- C1, counterexample: the claim says the controller takes no action (in
particular makes no oracle call) exactly when `|difference| < 1.00`.  On an
analysis whose difference is 1/2 - well inside that tolerance - the
controller nevertheless invokes the oracle: the source's skip threshold is
`0.01`, not `1.00`. -/
theorem claim1_counterexample :
    reconcileDifference claim1analysisA = 1/2 ∧
    |reconcileDifference claim1analysisA| < 1 ∧
    (reconcile_missing_costs claim1analysisA (OracleReply.parsed [])).2 = true := by
  have h : reconcileDifference claim1analysisA = 1/2 := by
    unfold reconcileDifference claim1analysisA Dec.toRat Dec.ofInt
    norm_num
  refine ⟨h, ?_, by decide⟩
  rw [h]
  rw [abs_of_pos (by norm_num : (0:ℚ) < 1/2)]
  norm_num

/-- C1, amended: `reconcile_missing_costs` takes no action - no oracle
call, the analysis returned unchanged - exactly when the pre-call
difference satisfies `|difference| < 0.01`; otherwise it submits exactly
one request to the oracle (the call flag of the model). -/
theorem claim1_reconcile_threshold (a : LLMAnalysis) (o : OracleReply) :
    (|reconcileDifference a| < 1/100 → reconcile_missing_costs a o = (a, false)) ∧
    (1/100 ≤ |reconcileDifference a| → (reconcile_missing_costs a o).2 = true) := by
  constructor
  · intro h
    have hg := (reconcile_guard_iff a).mpr h
    simp only [reconcile_missing_costs]
    rw [hg]
    simp
  · intro h
    have hg : ((a.cost_validation.invoice_total.getD (Dec.ofInt 0)).sub
        (a.cost_validation.calculated_total.getD (Dec.ofInt 0))).absD.blt dec1over100 = false := by
      rcases hb : ((a.cost_validation.invoice_total.getD (Dec.ofInt 0)).sub
          (a.cost_validation.calculated_total.getD (Dec.ofInt 0))).absD.blt dec1over100 with _ | _
      · rfl
      · exact absurd ((reconcile_guard_iff a).mp hb) (not_lt.mpr h)
    simp only [reconcile_missing_costs]
    rw [hg]
    cases o with
    | callError => simp
    | noContent => simp
    | badJson => simp
    | parsed ms =>
      by_cases hm : ms.isEmpty
      · simp [hm]
      · simp [hm]

/-- C1, witness: at difference 0 the pass is skipped with the analysis
unchanged; at difference 1/2 the oracle is called. -/
theorem claim1_witness :
    reconcile_missing_costs claim1analysisB OracleReply.callError = (claim1analysisB, false) ∧
    (reconcile_missing_costs claim1analysisA (OracleReply.parsed [])).2 = true := by
  constructor
  · refine (claim1_reconcile_threshold claim1analysisB OracleReply.callError).1 ?_
    have h : reconcileDifference claim1analysisB = 0 := by
      unfold reconcileDifference claim1analysisB Dec.toRat Dec.ofInt
      norm_num
    rw [h]
    norm_num
  · refine (claim1_reconcile_threshold claim1analysisA (OracleReply.parsed [])).2 ?_
    have h : reconcileDifference claim1analysisA = 1/2 := by
      unfold reconcileDifference claim1analysisA Dec.toRat Dec.ofInt
      norm_num
    rw [h]
    rw [abs_of_pos (by norm_num : (0:ℚ) < 1/2)]
    norm_num

/-! ## Claim C3 -/

/-- C3: one reconciliation pass only ever appends to the ledger: the result
is the input ledger followed by a (possibly empty) tail, so its length is
at least the pre-reconciliation length and every pre-existing item is still
present, unmodified, at its original position. -/
theorem claim3_reconcile_additive_only (a : LLMAnalysis) (o : OracleReply) :
    ∃ tl, (reconcile_missing_costs a o).1.service_line_items
            = a.service_line_items ++ tl ∧
      a.service_line_items.length
        ≤ (reconcile_missing_costs a o).1.service_line_items.length ∧
      (reconcile_missing_costs a o).1.service_line_items.take
          a.service_line_items.length = a.service_line_items := by
  have core : ∃ tl, (reconcile_missing_costs a o).1.service_line_items
      = a.service_line_items ++ tl := by
    simp only [reconcile_missing_costs]
    split
    · exact ⟨[], by simp⟩
    · cases o with
      | callError => exact ⟨[], by simp⟩
      | noContent => exact ⟨[], by simp⟩
      | badJson => exact ⟨[], by simp⟩
      | parsed ms =>
        by_cases h : ms.isEmpty
        · exact ⟨[], by simp [h]⟩
        · exact ⟨ms, by simp [h]⟩
  obtain ⟨tl, htl⟩ := core
  refine ⟨tl, htl, ?_, ?_⟩
  · rw [htl]
    simp
  · rw [htl]
    simp [List.take_left]

/-! ## Claim C4 -/

/-- C4: when the oracle call raises, returns no content, or returns output
that does not decode as JSON, the controller returns the analysis - ledger
and validation totals - exactly as it was before the call; totality of the
model reflects that the handlers swallow the failure rather than raising. -/
theorem claim4_oracle_failure_preserves_analysis (a : LLMAnalysis) :
    (reconcile_missing_costs a OracleReply.callError).1 = a ∧
    (reconcile_missing_costs a OracleReply.noContent).1 = a ∧
    (reconcile_missing_costs a OracleReply.badJson).1 = a := by
  refine ⟨?_, ?_, ?_⟩ <;>
    · simp only [reconcile_missing_costs]
      split
      · rfl
      · rfl

/-! ## Claim C8 -/

/-- A candidate item with every field absent: a malformed oracle entry. -/
def claim8bad : RawItem :=
  { service_category := none, service_name := none, service_type := none,
    region := none, usage_quantity := none, usage_unit := none,
    rate_description := none, cost_usd := none, line_text := none,
    reason_missed := none }

/-- An analysis with an empty ledger and a residual difference of 10. -/
def claim8analysis : LLMAnalysis :=
  { total_invoice_amount := none, service_line_items := [],
    cost_validation :=
      { calculated_total := some (Dec.ofInt 0),
        invoice_total := some (Dec.ofInt 10),
        difference := none, validation_passed := none } }

/-- C8, counterexample: a candidate with every required field missing is
appended to the ledger exactly as it arrived - no field is checked or
defaulted before the append, and the malformed entry is not dropped. -/
theorem claim8_counterexample :
    claim8bad.cost_usd = none ∧ claim8bad.service_category = none ∧
    (reconcile_missing_costs claim8analysis
        (OracleReply.parsed [claim8bad])).1.service_line_items = [claim8bad] := by
  refine ⟨rfl, rfl, by decide⟩

/-- Shared behaviour of an appending reconciliation pass: the candidates
are appended raw and the calculated total is recomputed as the defaulted
`cost_usd` sum over the extended ledger. -/
theorem reconcile_parsed_append (a : LLMAnalysis) (ms : List RawItem)
    (h : 1/100 ≤ |reconcileDifference a|) (hne : ms ≠ []) :
    (reconcile_missing_costs a (OracleReply.parsed ms)).1.service_line_items
      = a.service_line_items ++ ms ∧
    (reconcile_missing_costs a (OracleReply.parsed ms)).1.cost_validation.calculated_total
      = some (sumCostUsd (a.service_line_items ++ ms)) := by
  have hg : ((a.cost_validation.invoice_total.getD (Dec.ofInt 0)).sub
      (a.cost_validation.calculated_total.getD (Dec.ofInt 0))).absD.blt dec1over100 = false := by
    rcases hb : ((a.cost_validation.invoice_total.getD (Dec.ofInt 0)).sub
        (a.cost_validation.calculated_total.getD (Dec.ofInt 0))).absD.blt dec1over100 with _ | _
    · rfl
    · exact absurd ((reconcile_guard_iff a).mp hb) (not_lt.mpr h)
  have hm : ms.isEmpty = false := by
    rcases ms with _ | ⟨x, xs⟩
    · exact absurd rfl hne
    · rfl
  constructor <;>
    · simp only [reconcile_missing_costs]
      rw [hg]
      simp [hm]

/-- C8, amended: the controller appends the oracle's candidates to the
ledger without any per-field validation or defaulting; a missing `cost_usd`
is defaulted to `0.0` only inside the recomputation of the calculated
total, and the new calculated total is the sum of the `cost_usd` values
(defaulted to zero) over the extended ledger. -/
theorem claim8_append_without_validation (a : LLMAnalysis) (ms : List RawItem)
    (h : 1/100 ≤ |reconcileDifference a|) (hne : ms ≠ []) :
    (reconcile_missing_costs a (OracleReply.parsed ms)).1.service_line_items
      = a.service_line_items ++ ms ∧
    (reconcile_missing_costs a (OracleReply.parsed ms)).1.cost_validation.calculated_total
      = some (sumCostUsd (a.service_line_items ++ ms)) ∧
    (sumCostUsd (a.service_line_items ++ ms)).toRat
      = ((a.service_line_items ++ ms).map
          (fun it => (it.cost_usd.getD (Dec.ofInt 0)).toRat)).sum := by
  obtain ⟨h1, h2⟩ := reconcile_parsed_append a ms h hne
  exact ⟨h1, h2, sumCostUsd_toRat _⟩

/-- C8, witness: the amended behaviour at the concrete malformed entry. -/
theorem claim8_witness :
    (reconcile_missing_costs claim8analysis
        (OracleReply.parsed [claim8bad])).1.service_line_items = [claim8bad] ∧
    (reconcile_missing_costs claim8analysis
        (OracleReply.parsed [claim8bad])).1.cost_validation.calculated_total
      = some (sumCostUsd [claim8bad]) := by
  have h : 1/100 ≤ |reconcileDifference claim8analysis| := by
    have hd : reconcileDifference claim8analysis = 10 := by
      unfold reconcileDifference claim8analysis Dec.toRat Dec.ofInt
      norm_num
    rw [hd]
    norm_num
  have hmain := claim8_append_without_validation claim8analysis [claim8bad] h (by simp)
  exact ⟨hmain.1, hmain.2.1⟩

/-! ## Claim C9 -/

/-- A line that a forensic cost pattern matches (`USD 5.00` at end of
line) and that `_categorize_service` files under `EBS`. -/
def claim9line : List Char := ("EBS volume USD 5.00").toList

/-- C9 (code bug): the spec says forensic mode emits a LineItem for every
line on which a cost pattern matches and parses.  On `EBS volume USD 5.00`
the cost pattern matches and parses to 5.00, but `_extract_service_name`
looks up the category `EBS`, which is missing from its pattern table, uses
the bare string `EBS` as the pattern, finds it in the line and calls
`match.group(1)` on a match with no capture group: the `IndexError` is
caught by the per-line handler, so no item is emitted and the cost is not
added to the extracted total. -/
theorem claim9_forensic_drops_ebs_line :
    extract_cost_from_line (stripPy claim9line) = some ⟨500, 100, by norm_num⟩ ∧
    forensic_categorize (stripPy claim9line) = "EBS" ∧
    forensic_service_name (stripPy claim9line) "EBS" = none ∧
    (extract_all_costs_forensic claim9line "f").service_line_items = [] ∧
    (extract_all_costs_forensic claim9line "f").calculated_total = Dec.ofInt 0 := by
  refine ⟨by decide, by decide, by decide, by decide, by decide⟩

/-! ## Claim C10 -/

/-- The fallback constant `Decimal('3645.60')`. -/
def fallbackTotal : Dec := ⟨364560, 100, by norm_num⟩

/-- A cost-bearing text in which none of the three invoice-total patterns
matches. -/
def claim10line : List Char := ("Service charge USD 2.50").toList

/-- C10, counterexample: the claim says that when no invoice total can be
located, validation is skipped and `passed` is indeterminate, not computed
against a substituted total.  On a text with no locatable total the source
substitutes the fallback constant 3645.60 and computes the validation
against it: `validation_passed` is the definite boolean `false`. -/
theorem claim10_counterexample :
    scanTotals claim10line = none ∧
    find_invoice_total claim10line = fallbackTotal ∧
    (find_invoice_total claim10line).toRat = 18228/5 ∧
    (extract_all_costs_forensic claim10line "f").validation_passed = false := by
  refine ⟨by decide, by decide, ?_, by decide⟩
  have h : find_invoice_total claim10line = fallbackTotal := by decide
  rw [h]
  unfold fallbackTotal Dec.toRat
  norm_num

/-- C10, amended: when none of the total patterns matches,
`_find_invoice_total` substitutes the documented fallback constant 3645.60,
and the forensic analysis computes its validation against that substituted
total (`passed = |difference| < 0.01` over the stored difference); the
missing total never raises - the extractor is a total function. -/
theorem claim10_fallback_total (text : List Char) (fn : String)
    (h : scanTotals text = none) :
    find_invoice_total text = fallbackTotal ∧
    (extract_all_costs_forensic text fn).invoice_total = pyFloat fallbackTotal ∧
    (extract_all_costs_forensic text fn).total_invoice_amount = pyFloat fallbackTotal ∧
    (extract_all_costs_forensic text fn).validation_passed
      = ((extract_all_costs_forensic text fn).difference.absD.blt dec1over100) := by
  have hf : find_invoice_total text = fallbackTotal := by
    unfold find_invoice_total
    rw [h]
    rfl
  refine ⟨hf, ?_, ?_, ?_⟩
  · simp only [extract_all_costs_forensic]
    rw [hf]
  · simp only [extract_all_costs_forensic]
    rw [hf]
  · simp only [extract_all_costs_forensic]

/-- C10, witness: the fallback behaviour at the concrete text. -/
theorem claim10_witness :
    find_invoice_total claim10line = fallbackTotal ∧
    (extract_all_costs_forensic claim10line "f").invoice_total
      = pyFloat fallbackTotal := by
  have hmain := claim10_fallback_total claim10line "f" (by decide)
  exact ⟨hmain.1, hmain.2.1⟩

/-! ## Claim C2 -/

/-- The exact decimal 9.15, an amount that is not representable in binary
floating point. -/
def dec915 : Dec := ⟨915, 100, by norm_num⟩

/-- A line from the spec's own worked example. -/
def claim2line : List Char :=
  ("Amazon Elastic Compute Cloud t3a.small USD 9.15").toList

/-- C2, counterexample: the claim says every cost stored in a ledger
LineItem is the exact decimal amount, never a binary floating-point
approximation.  The forensic `_create_service_item` stores
`cost_usd = float(cost)`: for the extracted decimal 9.15 the stored value
is the binary64 rounding of 9.15, which differs from 9.15. -/
theorem claim2_counterexample :
    dec915.toRat = 183/20 ∧
    ((create_service_item claim2line dec915 1).get (by decide)).cost_usd.toRat
      ≠ 183/20 := by
  have h915 : dec915.toRat = 183/20 := by
    unfold dec915 Dec.toRat
    norm_num
  refine ⟨h915, ?_⟩
  intro he
  have hb : ((create_service_item claim2line dec915 1).get (by decide)).cost_usd.beq
      dec915 = false := by decide
  have ht : ((create_service_item claim2line dec915 1).get (by decide)).cost_usd.beq
      dec915 = true := by
    rw [Dec.beq_iff, h915]
    exact he
  rw [ht] at hb
  exact Bool.noConfusion hb

/-- C2, amended: classified-mode `ServiceUsage.cost` holds the exact parsed
decimal, but the forensic item's stored `cost_usd` is the binary64
conversion (`float(cost)`) of the exact extracted decimal - a dyadic
rational, hence not equal to the exact amount whenever that amount is not
representable in binary floating point. -/
theorem claim2_cost_representation :
    (∀ (line : List Char) (cost : Dec) (n : ℕ) (it : ForensicItem),
        create_service_item line cost n = some it → it.cost_usd = pyFloat cost) ∧
    (∀ x : Dec, Dyadic (pyFloat x).toRat) ∧
    (∀ (ln : ℕ) (raw : List Char) (u : ServiceUsage),
        classifyLine ln raw = some (some u) →
        extract_cost (stripPy raw) = some u.cost) := by
  refine ⟨?_, pyFloat_dyadic, ?_⟩
  · intro line cost n it h
    simp only [create_service_item] at h
    rcases hn : forensic_service_name line (forensic_categorize line) with _ | name
    · rw [hn] at h
      exact absurd h (by simp)
    · rw [hn] at h
      simp only [Option.some.injEq] at h
      rw [← h]
  · intro ln raw u h
    simp only [classifyLine] at h
    split at h
    · exact absurd h (by simp)
    · split at h
      · exact absurd h (by simp)
      · split at h
        · exact absurd h (by simp)
        · split at h
          · exact absurd h (by simp)
          · split at h
            · exact absurd h (by simp)
            · rename_i hcost hzero hconf hname
              simp only [Option.some.injEq] at h
              rw [← h]
              assumption

/-- The line of the running-total counterexample: one classified EC2 item
of cost 9.15. -/
def claim6line : List Char :=
  ("Amazon Elastic Compute Cloud instance 2 hours USD 9.15").toList

/-- C2, witness: the amended statement at the concrete inputs. -/
theorem claim2_witness :
    ((create_service_item claim2line dec915 1).get (by decide)).cost_usd
      = pyFloat dec915 ∧
    Dyadic (pyFloat dec915).toRat ∧
    extract_cost (stripPy claim6line)
      = some (((classifyLine 1 claim6line).get (by decide)).get (by decide)).cost := by
  refine ⟨?_, claim2_cost_representation.2.1 dec915, ?_⟩
  · exact claim2_cost_representation.1 claim2line dec915 1 _ (Option.some_get _).symm
  · refine claim2_cost_representation.2.2 1 claim6line _ ?_
    rw [Option.some_get, Option.some_get]

/-! ## Claim C6 -/

/-- The flat classified ledger: the grouped per-category item lists,
concatenated. -/
def classifiedLedger (A : ClassifiedAnalysis) : List ServiceUsage :=
  (A.services_by_category.map (fun g => g.2)).flatten

/-- The declarative mirror of the forensic line loop: the exact extracted
cost of each line that yields a ledger item (a matching, parsing cost
pattern and an item construction that does not raise). -/
def forensicLineCost (p : ℕ × List Char) : Option Dec :=
  let line := stripPy p.2
  if line.isEmpty then none
  else
    match extract_cost_from_line line with
    | none => none
    | some c =>
      match create_service_item line c p.1 with
      | some _ => some c
      | none => none

def forensicLineCosts (text : List Char) : List Dec :=
  (numberFrom 1 (splitNl text)).filterMap forensicLineCost

theorem classifiedScan_spec :
    ∀ (L : List (ℕ × List Char)) (acc : List ServiceUsage × Dec)
      (us : List ServiceUsage) (t : Dec),
      classifiedScan acc L = some (us, t) →
      ∃ neu, us = acc.1 ++ neu ∧
        t.toRat = acc.2.toRat + (neu.map (fun u => u.cost.toRat)).sum := by
  intro L
  induction L with
  | nil =>
    intro acc us t h
    simp only [classifiedScan, Option.some.injEq] at h
    subst h
    refine ⟨[], by simp, by simp⟩
  | cons p rest ih =>
    intro acc us t h
    simp only [classifiedScan] at h
    split at h
    · exact absurd h (by simp)
    · exact ih acc us t h
    · rename_i u heq
      obtain ⟨neu, hus, hsum⟩ := ih _ us t h
      refine ⟨u :: neu, ?_, ?_⟩
      · rw [hus]
        simp
      · rw [hsum]
        simp only [Dec.toRat_add, List.map_cons, List.sum_cons]
        ring

theorem forensicScan_total :
    ∀ (L : List (ℕ × List Char)) (acc : List ForensicItem × Dec),
      (forensicScan acc L).2.toRat
        = acc.2.toRat + ((L.filterMap forensicLineCost).map Dec.toRat).sum := by
  intro L
  induction L with
  | nil => intro acc; simp [forensicScan]
  | cons p rest ih =>
    intro acc
    simp only [forensicScan, forensicLineCost, List.filterMap_cons]
    split
    · rw [ih]
    · split
      · rw [ih]
      · split
        · rename_i cost hcost it hit
          simp only [List.map_cons, List.sum_cons]
          rw [ih]
          simp only [Dec.toRat_add]
          ring
        · rw [ih]

/-- The running flat cost sum of a grouping. -/
def flatSum (gs : List (String × List ServiceUsage × Dec)) : ℚ :=
  ((gs.map (fun g => g.2.1)).flatten.map (fun u => u.cost.toRat)).sum

theorem insertUsage_flatSum (u : ServiceUsage) :
    ∀ gs, flatSum (insertUsage gs u) = flatSum gs + u.cost.toRat := by
  intro gs
  induction gs with
  | nil => simp [insertUsage, flatSum]
  | cons g rest ih =>
    rcases g with ⟨c, l, t⟩
    simp only [insertUsage]
    split
    · simp only [flatSum, List.map_cons, List.flatten_cons, List.map_append,
        List.sum_append]
      simp [flatSum]
      ring
    · simp only [flatSum, List.map_cons, List.flatten_cons, List.map_append,
        List.sum_append] at ih ⊢
      rw [ih]
      ring

theorem groupUsages_flatSum :
    ∀ (us : List ServiceUsage) (gs : List (String × List ServiceUsage × Dec)),
      flatSum (groupUsages gs us)
        = flatSum gs + (us.map (fun u => u.cost.toRat)).sum := by
  intro us
  induction us with
  | nil => intro gs; simp [groupUsages]
  | cons u rest ih =>
    intro gs
    simp only [groupUsages, List.map_cons, List.sum_cons]
    rw [ih, insertUsage_flatSum]
    ring

/-- C6, counterexample: the claim says `calculated_total` equals the sum of
the costs over the ledger.  On a one-line invoice whose only item costs
exactly 9.15, the classified summary stores
`calculated_total = float(total)`, the binary64 rounding of 9.15, which is
not equal to the exact ledger sum 9.15 that the items carry. -/
theorem claim6_counterexample :
    ((analyze_aws_invoice claim6line "f").get (by decide)).calculated_total.toRat
      ≠ ((classifiedLedger ((analyze_aws_invoice claim6line "f").get (by decide))).map
          (fun u => u.cost.toRat)).sum := by
  intro he
  have hsum : (sumDec ((classifiedLedger ((analyze_aws_invoice claim6line "f").get
      (by decide))).map (fun u => u.cost))).toRat
      = ((classifiedLedger ((analyze_aws_invoice claim6line "f").get (by decide))).map
          (fun u => u.cost.toRat)).sum := by
    rw [sumDec_toRat, List.map_map]
    rfl
  have hb : ((analyze_aws_invoice claim6line "f").get (by decide)).calculated_total.beq
      (sumDec ((classifiedLedger ((analyze_aws_invoice claim6line "f").get
        (by decide))).map (fun u => u.cost))) = false := by decide
  have ht : ((analyze_aws_invoice claim6line "f").get (by decide)).calculated_total.beq
      (sumDec ((classifiedLedger ((analyze_aws_invoice claim6line "f").get
        (by decide))).map (fun u => u.cost))) = true := by
    rw [Dec.beq_iff, hsum]
    exact he
  rw [ht] at hb
  exact Bool.noConfusion hb

/-- C6, amended (extraction summary points): the stored `calculated_total`
is the binary64 conversion of a decimal that is exactly the sum of the
relevant costs - for classified extraction, the exact sum of the ledger
items' costs; for forensic extraction, the exact sum of the parsed costs of
the emitted lines - so it equals the ledger sum itself only when that sum
is binary64-representable.  (The third summary point, the recomputation
after a reconciliation pass, sums already-float `cost_usd` values with
rounding at each addition; under this file's exact-accumulation convention
no exactness statement is made about that value.) -/
theorem claim6_running_totals :
    (∀ (text : List Char) (fn : String) (A : ClassifiedAnalysis),
       analyze_aws_invoice text fn = some A →
       ∃ t : Dec, t.toRat = ((classifiedLedger A).map (fun u => u.cost.toRat)).sum ∧
         A.calculated_total = pyFloat t) ∧
    (∀ (text : List Char) (fn : String),
       ∃ t : Dec, t.toRat = ((forensicLineCosts text).map Dec.toRat).sum ∧
         (extract_all_costs_forensic text fn).calculated_total = pyFloat t) := by
  refine ⟨?_, ?_⟩
  · intro text fn A h
    simp only [analyze_aws_invoice] at h
    split at h
    · exact absurd h (by simp)
    · rename_i acc hacc
      simp only [Option.some.injEq] at h
      subst h
      refine ⟨acc.2, ?_, rfl⟩
      obtain ⟨neu, hus, hsum⟩ :=
        classifiedScan_spec (numberFrom 1 (splitNl text)) ([], Dec.ofInt 0)
          acc.1 acc.2 (by rw [hacc])
      have hflat : ((classifiedLedger
          { filename := fn, total_cost := pyFloat acc.2, total_entries := acc.1.length,
            service_categories := (groupUsages [] acc.1).map (fun g => g.1),
            services_by_category := (groupUsages [] acc.1).map (fun g => (g.1, g.2.1)),
            category_totals := (groupUsages [] acc.1).map (fun g => (g.1, pyFloat g.2.2)),
            calculated_total := pyFloat acc.2,
            category_sum := pyFloat ((groupUsages [] acc.1).foldl
              (fun a g => a.add g.2.2) (Dec.ofInt 0)),
            validation_passed := true }).map (fun u => u.cost.toRat)).sum
          = flatSum (groupUsages [] acc.1) := by
        simp only [classifiedLedger, flatSum, List.map_map]
        rfl
      rw [hflat, groupUsages_flatSum acc.1 []]
      rw [hsum]
      have hnil : flatSum [] = 0 := by simp [flatSum]
      rw [hnil, hus]
      simp [Dec.toRat_ofInt]
  · intro text fn
    refine ⟨(forensicScan ([], Dec.ofInt 0) (numberFrom 1 (splitNl text))).2, ?_, rfl⟩
    rw [forensicScan_total]
    simp [forensicLineCosts, Dec.toRat_ofInt]

/-- C6, witness: the amended statement at a concrete input - the one-item
classified analysis and the forensic extraction of the same line. -/
theorem claim6_witness :
    (∃ t : Dec, t.toRat = ((classifiedLedger ((analyze_aws_invoice claim6line "f").get
        (by decide))).map (fun u => u.cost.toRat)).sum ∧
      ((analyze_aws_invoice claim6line "f").get (by decide)).calculated_total
        = pyFloat t) ∧
    (∃ t : Dec, t.toRat = ((forensicLineCosts claim6line).map Dec.toRat).sum ∧
      (extract_all_costs_forensic claim6line "f").calculated_total = pyFloat t) := by
  constructor
  · exact claim6_running_totals.1 claim6line "f" _ (Option.some_get _).symm
  · exact claim6_running_totals.2 claim6line "f"

/-! ## Claim C7 -/

theorem litCIAt_mem : ∀ (p cs r : List Char), litCIAt p cs = some r →
    ∀ c ∈ r, c ∈ cs := by
  intro p
  induction p with
  | nil =>
    intro cs r h c hc
    simp only [litCIAt, Option.some.injEq] at h
    rw [← h] at hc
    exact hc
  | cons x xs ih =>
    intro cs r h c hc
    cases cs with
    | nil => exact absurd h (by simp [litCIAt])
    | cons y ys =>
      simp only [litCIAt] at h
      split at h
      · exact List.mem_cons_of_mem y (ih ys r h c hc)
      · exact absurd h (by simp)

theorem takeWhile_mem {p : Char → Bool} {cs : List Char} {c : Char}
    (h : c ∈ cs.takeWhile p) : c ∈ cs := by
  induction cs with
  | nil => simp at h
  | cons x xs ih =>
    rw [List.takeWhile_cons] at h
    split at h
    · rcases List.mem_cons.mp h with h1 | h1
      · exact h1 ▸ List.mem_cons_self x xs
      · exact List.mem_cons_of_mem x (ih h1)
    · simp at h

theorem dropWhile_mem {p : Char → Bool} {cs : List Char} {c : Char}
    (h : c ∈ cs.dropWhile p) : c ∈ cs := by
  induction cs with
  | nil => simp at h
  | cons x xs ih =>
    rw [List.dropWhile_cons] at h
    split at h
    · exact List.mem_cons_of_mem x (ih h)
    · exact h

theorem drop_mem {cs : List Char} {n : ℕ} {c : Char} (h : c ∈ cs.drop n) :
    c ∈ cs :=
  List.mem_of_mem_drop h

theorem take_mem {cs : List Char} {n : ℕ} {c : Char} (h : c ∈ cs.take n) :
    c ∈ cs :=
  List.mem_of_mem_take h

theorem spacesPlus_mem {cs r : List Char} (h : spacesPlus cs = some r) :
    ∀ c ∈ r, c ∈ cs := by
  intro c hc
  cases cs with
  | nil => exact absurd h (by simp [spacesPlus])
  | cons x xs =>
    simp only [spacesPlus] at h
    split at h
    · simp only [Option.some.injEq] at h
      subst h
      exact List.mem_cons_of_mem x (dropWhile_mem hc)
    · exact absurd h (by simp)

theorem stripDollarOpt_mem {cs : List Char} {c : Char}
    (h : c ∈ stripDollarOpt cs) : c ∈ cs := by
  cases cs with
  | nil => simp [stripDollarOpt] at h
  | cons x xs =>
    simp only [stripDollarOpt] at h
    split at h
    · exact List.mem_cons_of_mem x h
    · exact h

theorem numTokAt_mem {cs : List Char} {tr : List Char × List Char}
    (h : numTokAt cs = some tr) : ∀ c ∈ tr.1, c ∈ cs := by
  intro c hc
  simp only [numTokAt] at h
  split at h
  · exact absurd h (by simp)
  · split at h
    · rename_i r2 heq
      simp only [Option.some.injEq] at h
      rw [← h] at hc
      rcases List.mem_append.mp hc with h1 | h1
      · exact takeWhile_mem h1
      · rcases List.mem_cons.mp h1 with h2 | h2
        · subst h2
          refine drop_mem (n := (cs.takeWhile isNumC).length) ?_
          rw [heq]
          exact List.mem_cons_self _ _
        · refine drop_mem (n := (cs.takeWhile isNumC).length) ?_
          rw [heq]
          exact List.mem_cons_of_mem _ (takeWhile_mem h2)
    · simp only [Option.some.injEq] at h
      rw [← h] at hc
      exact takeWhile_mem hc

theorem dstarCands_mem {r : List Char} {tr : List Char × List Char}
    (h : tr ∈ dstarCands r) : ∀ c ∈ tr.1, c ∈ r := by
  intro c hc
  simp only [dstarCands, List.mem_map] at h
  obtain ⟨i, _, hie⟩ := h
  rw [← hie] at hc
  exact take_mem hc

theorem numTokCandsFor_mem {cs : List Char} {n1 : ℕ} {tr : List Char × List Char}
    (h : tr ∈ numTokCandsFor cs n1) : ∀ c ∈ tr.1, c ∈ cs := by
  intro c hc
  simp only [numTokCandsFor] at h
  split at h
  · rename_i r2 heq
    rcases List.mem_append.mp h with h1 | h1
    · obtain ⟨p, hp, hpe⟩ := List.mem_map.mp h1
      rw [← hpe] at hc
      rcases List.mem_append.mp hc with h2 | h2
      · exact take_mem h2
      · rcases List.mem_cons.mp h2 with h3 | h3
        · subst h3
          refine drop_mem (n := n1) ?_
          rw [heq]
          exact List.mem_cons_self _ _
        · refine drop_mem (n := n1) ?_
          rw [heq]
          exact List.mem_cons_of_mem _ (dstarCands_mem hp c h3)
    · rcases List.mem_cons.mp h1 with h2 | h2
      · rw [h2] at hc
        exact take_mem hc
      · simp at h2
  · obtain ⟨p, hp, hpe⟩ := List.mem_map.mp h
    rw [← hpe] at hc
    rcases List.mem_append.mp hc with h2 | h2
    · exact take_mem h2
    · exact drop_mem (dstarCands_mem hp c h2)

theorem numTokCands_mem {cs : List Char} {tr : List Char × List Char}
    (h : tr ∈ numTokCands cs) : ∀ c ∈ tr.1, c ∈ cs := by
  simp only [numTokCands, List.mem_flatten, List.mem_map] at h
  obtain ⟨l, ⟨n1, _, hn1⟩, hl⟩ := h
  exact numTokCandsFor_mem (hn1 ▸ hl)

theorem mUsdTok_mem {cs t : List Char} (h : mUsdTok cs = some t) :
    ∀ c ∈ t, c ∈ cs := by
  intro c hc
  simp only [mUsdTok, bind, Option.bind_eq_some] at h
  obtain ⟨r1, h1, r2, h2, tr, h3, h4⟩ := h
  simp only [Option.some.injEq] at h4
  subst h4
  exact litCIAt_mem _ cs r1 h1 c (spacesPlus_mem h2 c (numTokAt_mem h3 c hc))

theorem mDollarTok_mem {cs t : List Char} (h : mDollarTok cs = some t) :
    ∀ c ∈ t, c ∈ cs := by
  intro c hc
  simp only [mDollarTok] at h
  split at h
  · rename_i r1
    obtain ⟨tr, hn, htr⟩ := Option.map_eq_some'.mp h
    subst htr
    exact List.mem_cons_of_mem _ (dropWhile_mem (numTokAt_mem hn c hc))
  · exact absurd h (by simp)

theorem mTokUsd_mem {cs t : List Char} (h : mTokUsd cs = some t) :
    ∀ c ∈ t, c ∈ cs := by
  intro c hc
  simp only [mTokUsd] at h
  obtain ⟨tr, htr, hsome⟩ := List.exists_of_findSome?_eq_some h
  obtain ⟨r, _, htr1⟩ := Option.map_eq_some'.mp hsome
  subst htr1
  exact numTokCands_mem htr c hc

theorem mLabelTok_mem {label cs t : List Char} (h : mLabelTok label cs = some t) :
    ∀ c ∈ t, c ∈ cs := by
  intro c hc
  simp only [mLabelTok, bind, Option.bind_eq_some] at h
  obtain ⟨r1, h1, tr, h3, h4⟩ := h
  simp only [Option.some.injEq] at h4
  subst h4
  exact litCIAt_mem _ cs r1 h1 c
    (dropWhile_mem (stripDollarOpt_mem (numTokAt_mem h3 c hc)))

theorem scanO_some {α : Type} {f : List Char → Option α} {v : α} :
    ∀ l : List Char, scanO f l = some v →
      ∃ s : List Char, (∀ c ∈ s, c ∈ l) ∧ f s = some v := by
  intro l
  induction l with
  | nil =>
    intro h
    exact ⟨[], by simp, h⟩
  | cons x xs ih =>
    intro h
    simp only [scanO] at h
    split at h
    · rename_i r heq
      simp only [Option.some.injEq] at h
      subst h
      exact ⟨x :: xs, fun c hc => hc, heq⟩
    · obtain ⟨s, hs, hf⟩ := ih h
      exact ⟨s, fun c hc => List.mem_cons_of_mem x (hs c hc), hf⟩

theorem parseDec_some_digit {t : List Char} {q : Dec} (h : parseDec t = some q) :
    ∃ c ∈ t, c.isDigit = true := by
  simp only [parseDec] at h
  split at h
  · rename_i ha
    obtain ⟨c, hc, hd⟩ := List.any_eq_true.mp ha
    exact ⟨c, List.mem_of_mem_filter hc, hd⟩
  · exact absurd h (by simp)

/-- Every cost matcher in the table captures only characters of the line. -/
theorem costMatchers_mem : ∀ m ∈ costMatchers, ∀ (line t : List Char),
    m line = some t → ∀ c ∈ t, c ∈ line := by
  intro m hm line t h c hc
  simp only [costMatchers, List.mem_cons, List.not_mem_nil, or_false] at hm
  rcases hm with h5 | h5 | h5 | h5 | h5 <;> subst h5 <;>
    obtain ⟨s, hs, hf⟩ := scanO_some line h
  · exact hs c (mUsdTok_mem hf c hc)
  · exact hs c (mDollarTok_mem hf c hc)
  · exact hs c (mTokUsd_mem hf c hc)
  · exact hs c (mLabelTok_mem hf c hc)
  · exact hs c (mLabelTok_mem hf c hc)

theorem firstParsed_append (line : List Char) :
    ∀ pre post : List (List Char → Option (List Char)),
      (∀ m ∈ pre, (m line).bind parseDec = none) →
      firstParsed (pre ++ post) line = firstParsed post line := by
  intro pre
  induction pre with
  | nil => intro post h; simp
  | cons m ms ih =>
    intro post h
    have hm := h m (List.mem_cons_self m ms)
    simp only [List.cons_append, firstParsed, hm]
    exact ih post (fun m' hm' => h m' (List.mem_cons_of_mem m hm'))

theorem firstParsed_none_iff (line : List Char) :
    ∀ mss : List (List Char → Option (List Char)),
      firstParsed mss line = none ↔ ∀ m ∈ mss, (m line).bind parseDec = none := by
  intro mss
  induction mss with
  | nil => simp [firstParsed]
  | cons m ms ih =>
    simp only [firstParsed]
    rcases hb : (m line).bind parseDec with _ | q
    · simp only [List.forall_mem_cons, hb, true_and]
      exact ih
    · simp only [hb]
      constructor
      · intro h
        exact absurd h (by simp)
      · intro h
        have hmm := h m (List.mem_cons_self m ms)
        rw [hb] at hmm
        exact absurd hmm (by simp)

/-- C7: cost extraction tries its five patterns in the fixed priority
order and returns the value of the first pattern whose match parses; it
returns no amount exactly when every pattern's match fails to parse, and
in particular on every line containing no digit (a matched token without a
digit always fails decimal parsing).  The model's extractor is a total
function, reflecting that the parse failures are caught, never raised. -/
theorem claim7_extract_cost_priority_and_rejection :
    (∀ (line : List Char) (pre post : List (List Char → Option (List Char)))
       (m : List Char → Option (List Char)) (v : Dec),
       costMatchers = pre ++ m :: post →
       (∀ m' ∈ pre, (m' line).bind parseDec = none) →
       (m line).bind parseDec = some v →
       extract_cost line = some v) ∧
    (∀ line : List Char, extract_cost line = none ↔
       ∀ m ∈ costMatchers, (m line).bind parseDec = none) ∧
    (∀ line : List Char, (∀ c ∈ line, c.isDigit = false) →
       extract_cost line = none) := by
  refine ⟨?_, ?_, ?_⟩
  · intro line pre post m v hsplit hpre hm
    unfold extract_cost
    rw [hsplit, firstParsed_append line pre (m :: post) hpre]
    simp only [firstParsed, hm]
  · intro line
    exact firstParsed_none_iff line costMatchers
  · intro line hnod
    unfold extract_cost
    rw [firstParsed_none_iff]
    intro m hm
    rcases hb : (m line).bind parseDec with _ | q
    · rfl
    · exfalso
      rcases ht : m line with _ | t
      · rw [ht] at hb
        exact absurd hb (by simp)
      · rw [ht] at hb
        simp only [Option.some_bind] at hb
        obtain ⟨c, hc, hd⟩ := parseDec_some_digit hb
        have := costMatchers_mem m hm line t ht c hc
        rw [hnod c this] at hd
        exact Bool.noConfusion hd

/-- C7, witness: the lowest-priority pattern (`Total:`-labelled) fires when
the four earlier patterns fail, and a digit-free line yields no amount. -/
theorem claim7_witness :
    extract_cost (("Total: 7.00").toList) = some ⟨700, 100, by norm_num⟩ ∧
    extract_cost (("no digits here, none").toList) = none := by
  constructor
  · refine claim7_extract_cost_priority_and_rejection.1 (("Total: 7.00").toList)
      [scanO mUsdTok, scanO mDollarTok, scanO mTokUsd,
       scanO (mLabelTok ("cost:".toList))]
      [] (scanO (mLabelTok ("total:".toList))) ⟨700, 100, by norm_num⟩ rfl ?_
      (by decide)
    intro m' hm'
    simp only [List.mem_cons, List.not_mem_nil, or_false] at hm'
    rcases hm' with h | h | h | h <;> subst h <;> decide
  · exact claim7_extract_cost_priority_and_rejection.2.2
      (("no digits here, none").toList) (by decide)
/-! ## Claim C5 -/

/-- The maximum score of a score list (0 on the empty list). -/
def maxKeyN : List (String × ℕ) → ℕ
  | [] => 0
  | s :: t => max s.2 (maxKeyN t)

/-- Python's first-maximum `max`: the element `pickMax` keeps is the first
list element attaining the maximum key. -/
theorem pickMax_first_max : ∀ (l : List (String × ℕ)) (x : String × ℕ),
    (x :: l).find? (fun s => s.2 == maxKeyN (x :: l)) = some (pickMax x l) := by
  intro l
  induction l with
  | nil =>
    intro x
    have hM : maxKeyN [x] = x.2 := by simp [maxKeyN]
    rw [hM, List.find?_cons_of_pos _ (by simp)]
    rfl
  | cons y t ih =>
    intro x
    by_cases hxy : x.2 < y.2
    · have hM : maxKeyN (x :: y :: t) = maxKeyN (y :: t) := by
        simp only [maxKeyN]
        omega
      have hlt : x.2 < maxKeyN (y :: t) := by
        simp only [maxKeyN]
        omega
      have hpick : pickMax x (y :: t) = pickMax y t := by
        simp only [pickMax, if_pos hxy]
      rw [hM, hpick, List.find?_cons_of_neg _ (by simp [Nat.ne_of_lt hlt])]
      exact ih y
    · have hy : y.2 ≤ x.2 := Nat.le_of_not_lt hxy
      have hM : maxKeyN (x :: y :: t) = maxKeyN (x :: t) := by
        simp only [maxKeyN]
        omega
      have hpick : pickMax x (y :: t) = pickMax x t := by
        simp only [pickMax, if_neg hxy]
      rw [hM, hpick]
      have ihx := ih x
      by_cases hx : x.2 = maxKeyN (x :: t)
      · rw [List.find?_cons_of_pos _ (by simp [hx])]
        rw [List.find?_cons_of_pos _ (by simp [hx])] at ihx
        exact ihx
      · have hxM : x.2 ≤ maxKeyN (x :: t) := by
          simp only [maxKeyN]
          omega
        rw [List.find?_cons_of_neg _ (by simp [hx])]
        rw [List.find?_cons_of_neg _ (by simp [hx])] at ihx
        rw [List.find?_cons_of_neg]
        · exact ihx
        · simp only [beq_iff_eq]
          intro hyM
          exact hx (by omega)

/-- Keeping only the positive scores leaves the maximum unchanged. -/
theorem maxKeyN_filter_pos : ∀ l : List (String × ℕ),
    maxKeyN (l.filter (fun s => decide (0 < s.2))) = maxKeyN l := by
  intro l
  induction l with
  | nil => rfl
  | cons s t ih =>
    by_cases hs : 0 < s.2
    · have hd : (s :: t).filter (fun s => decide (0 < s.2))
          = s :: t.filter (fun s => decide (0 < s.2)) := by
        simp [List.filter_cons, hs]
      rw [hd]
      simp only [maxKeyN, ih]
    · have hz : s.2 = 0 := by omega
      have hd : (s :: t).filter (fun s => decide (0 < s.2))
          = t.filter (fun s => decide (0 < s.2)) := by
        simp [List.filter_cons, hs]
      rw [hd, ih]
      simp only [maxKeyN, hz]
      omega

/-- Finding the first element with a positive key `M` is unaffected by
first dropping the zero-score elements. -/
theorem find?_pos_filter (M : ℕ) (hM : 0 < M) : ∀ l : List (String × ℕ),
    (l.filter (fun s => decide (0 < s.2))).find? (fun s => s.2 == M)
      = l.find? (fun s => s.2 == M) := by
  intro l
  induction l with
  | nil => rfl
  | cons s t ih =>
    by_cases hs : 0 < s.2
    · have hd : (s :: t).filter (fun s => decide (0 < s.2))
          = s :: t.filter (fun s => decide (0 < s.2)) := by
        simp [List.filter_cons, hs]
      rw [hd]
      by_cases hsM : s.2 = M
      · rw [List.find?_cons_of_pos _ (by simp [hsM]),
          List.find?_cons_of_pos _ (by simp [hsM])]
      · rw [List.find?_cons_of_neg _ (by simp [hsM]),
          List.find?_cons_of_neg _ (by simp [hsM])]
        exact ih
    · have hz : s.2 = 0 := by omega
      have hd : (s :: t).filter (fun s => decide (0 < s.2))
          = t.filter (fun s => decide (0 < s.2)) := by
        simp [List.filter_cons, hs]
      rw [hd, List.find?_cons_of_neg _ (by simp [hz]; omega)]
      exact ih

/-- A zero maximum means no positive score survives the filter. -/
theorem filter_pos_nil_of_maxKeyN_zero : ∀ l : List (String × ℕ),
    maxKeyN l = 0 → l.filter (fun s => decide (0 < s.2)) = [] := by
  intro l
  induction l with
  | nil => intro _; rfl
  | cons s t ih =>
    intro h
    simp only [maxKeyN] at h
    have hs : s.2 = 0 := by omega
    have ht : maxKeyN t = 0 := by omega
    have hd : (s :: t).filter (fun s => decide (0 < s.2))
        = t.filter (fun s => decide (0 < s.2)) := by
      simp [List.filter_cons, hs]
    rw [hd]
    exact ih ht

/-- A positive maximum is attained by some element, so the positive filter
is nonempty. -/
theorem filter_pos_ne_nil_of_maxKeyN_pos : ∀ l : List (String × ℕ),
    0 < maxKeyN l → l.filter (fun s => decide (0 < s.2)) ≠ [] := by
  intro l
  induction l with
  | nil => intro h; simp [maxKeyN] at h
  | cons s t ih =>
    intro h hnil
    simp only [maxKeyN] at h
    by_cases hs : 0 < s.2
    · simp [List.filter_cons, hs] at hnil
    · have ht : 0 < maxKeyN t := by omega
      have hd : (s :: t).filter (fun s => decide (0 < s.2))
          = t.filter (fun s => decide (0 < s.2)) := by
        simp [List.filter_cons, hs]
      rw [hd] at hnil
      exact ih ht hnil

/-- The reference score table from the specification: every catalog
category paired with its score against the line. -/
def refScores (line : List Char) : List (String × ℕ) :=
  servicePatterns.map (fun p => (p.1, catScore (lowerStr line) p))

/-- The reference classifier, following the specification's words: if no
category scores positively, `Other` with confidence 0; otherwise the first
catalog category attaining the highest score, with confidence
`min(score/10, 1.0)`.  (The scoring formula itself - two points per
keyword word, one per unit - is `catScore`, stated identically by the
specification and the source.) -/
def classifierRef (line : List Char) : String × Dec :=
  let scores := refScores line
  if maxKeyN scores = 0 then ("Other", Dec.ofInt 0)
  else
    match scores.find? (fun s => s.2 == maxKeyN scores) with
    | some best => (best.1, Dec.pymin ⟨(best.2 : ℤ), 10, by norm_num⟩ (Dec.ofInt 1))
    | none => ("Other", Dec.ofInt 0)

/-- The source's positive-score table is the positive filter of the
reference score table. -/
theorem codeScores_eq_filter (line : List Char) :
    servicePatterns.filterMap (fun p =>
      let s := catScore (lowerStr line) p
      if 0 < s then some (p.1, s) else none)
    = (refScores line).filter (fun s => decide (0 < s.2)) := by
  unfold refScores
  induction servicePatterns with
  | nil => rfl
  | cons p t ih =>
    by_cases hp : 0 < catScore (lowerStr line) p
    · simp [List.filterMap_cons, List.filter_cons, hp, ih]
    · simp [List.filterMap_cons, List.filter_cons, hp, ih]

theorem decNat10_toRat (n : ℕ) :
    (Dec.mk (n : ℤ) 10 (by norm_num)).toRat = (n : ℚ) / 10 := by
  unfold Dec.toRat
  norm_num

/-- C5: on every input line the source classifier agrees with the
reference classifier - first highest-scoring catalog category, catalog
order breaking ties, `('Other', 0)` when nothing scores - and its
confidence is `min(maxscore/10, 1)`, which always lies in `[0, 1]`. -/
theorem claim5_classifier_matches_reference (line : List Char) :
    categorize_service line = classifierRef line ∧
    ((categorize_service line).2.toRat
      = if maxKeyN (refScores line) = 0 then 0
        else min ((maxKeyN (refScores line) : ℚ) / 10) 1) ∧
    0 ≤ (categorize_service line).2.toRat ∧
    (categorize_service line).2.toRat ≤ 1 := by
  have hcode : categorize_service line =
      (match (refScores line).filter (fun s => decide (0 < s.2)) with
       | [] => ("Other", Dec.ofInt 0)
       | x :: xs =>
         let best := pickMax x xs
         (best.1, Dec.pymin ⟨(best.2 : ℤ), 10, by norm_num⟩ (Dec.ofInt 1))) := by
    simp only [categorize_service]
    rw [codeScores_eq_filter]
  by_cases hM : maxKeyN (refScores line) = 0
  · have hnil := filter_pos_nil_of_maxKeyN_zero (refScores line) hM
    have hcode2 : categorize_service line = ("Other", Dec.ofInt 0) := by
      rw [hcode, hnil]
    have href : classifierRef line = ("Other", Dec.ofInt 0) := by
      unfold classifierRef
      rw [if_pos hM]
    refine ⟨hcode2.trans href.symm, ?_, ?_, ?_⟩ <;>
      simp [hcode2, hM, Dec.toRat_ofInt]
  · have hMpos : 0 < maxKeyN (refScores line) := Nat.pos_of_ne_zero hM
    have hne := filter_pos_ne_nil_of_maxKeyN_pos (refScores line) hMpos
    rcases hf : (refScores line).filter (fun s => decide (0 < s.2)) with _ | ⟨x, xs⟩
    · exact absurd hf hne
    · have hMf : maxKeyN (x :: xs) = maxKeyN (refScores line) := by
        rw [← hf, maxKeyN_filter_pos]
      have hfind : (refScores line).find? (fun s => s.2 == maxKeyN (refScores line))
          = some (pickMax x xs) := by
        rw [← find?_pos_filter _ hMpos, hf, ← hMf]
        exact pickMax_first_max xs x
      have hkey : (pickMax x xs).2 = maxKeyN (refScores line) := by
        have := List.find?_some hfind
        simpa using this
      have hcode2 : categorize_service line
          = ((pickMax x xs).1, Dec.pymin ⟨((pickMax x xs).2 : ℤ), 10, by norm_num⟩
              (Dec.ofInt 1)) := by
        rw [hcode, hf]
      have href : classifierRef line
          = ((pickMax x xs).1, Dec.pymin ⟨((pickMax x xs).2 : ℤ), 10, by norm_num⟩
              (Dec.ofInt 1)) := by
        unfold classifierRef
        rw [if_neg hM]
        simp only [hfind]
      have hconf : (categorize_service line).2.toRat
          = min ((maxKeyN (refScores line) : ℚ) / 10) 1 := by
        rw [hcode2]
        simp only [Dec.toRat_pymin]
        rw [decNat10_toRat, hkey]
        norm_num [Dec.toRat_ofInt]
      refine ⟨hcode2.trans href.symm, ?_, ?_, ?_⟩
      · rw [hconf, if_neg hM]
      · rw [hconf]
        have h0 : (0:ℚ) ≤ (maxKeyN (refScores line) : ℚ) / 10 := by positivity
        exact le_min h0 (by norm_num)
      · rw [hconf]
        exact min_le_right _ _

end AwsCore
